import Mathlib

/-!
A shallow embedding, in Lean 4, of the core algorithms of the
groq-audio-chunker repository (src/chunker.js, src/groq-client.js,
src/deduplication.js), together with theorems settling specification
claims about them.

JavaScript numbers are modelled as rationals (ℚ): every arithmetic
operation appearing in the modelled code paths (addition, subtraction,
multiplication, division, min, max, comparison) is exact on the inputs
the claims quantify over, so ℚ is a faithful carrier for them.
Asynchronous effects (the audio probe, the network) are modelled as
oracle functions supplied as parameters; loops whose termination depends
on such oracles take a fuel parameter, and every theorem holds for every
fuel value, hence for every terminating run of the original loop.
-/

set_option maxRecDepth 8192
set_option maxHeartbeats 1000000

namespace GroqAudioChunker

/-! ## Chunk planner (src/chunker.js, calculateChunks) -/

/-- The cut kinds that can be recorded in a chunk's cutInfo.type field.
The specification names three values: silence, exact and end. -/
inductive CutType where
  | silence
  | exact
  | endCut
deriving DecidableEq, Repr, Inhabited

/-- Overlap metadata attached to each chunk (the overlap object literal
built inside calculateChunks). -/
structure Overlap where
  leading : ℚ
  trailing : ℚ
  leadingStart : Option ℚ
  leadingEnd : Option ℚ
  trailingStart : Option ℚ
  trailingEnd : Option ℚ
deriving DecidableEq, Repr, Inhabited

/-- The cutInfo object literal: the silence field is always null in the
source (the comment there reads: simplified for now). -/
structure CutInfo where
  type : CutType
  silence : Option ℚ
deriving DecidableEq, Repr, Inhabited

/-- One chunk of the plan, as pushed onto the chunks array by
calculateChunks. The JavaScript field named end is called stop here
(end is a Lean keyword). -/
structure Chunk where
  index : ℕ
  logicalStart : ℚ
  logicalEnd : ℚ
  start : ℚ
  stop : ℚ
  duration : ℚ
  overlap : Overlap
  cutInfo : CutInfo
deriving DecidableEq, Repr, Inhabited

/-- Pass 1 of calculateChunks: the while-loop locating interior cut
points. The oracle models findBestCutPoint applied to the silences that
analyzeWindowForSilence returns for the window centered on the ideal
cut: some c when a silence midpoint c is chosen, none when no silence is
found or silence detection throws (both fall back to the exact cut).
The loop in the source has no a-priori bound, so the model takes fuel;
the cut points of any terminating run of the source are produced by this
function for every sufficiently large fuel. -/
def findCutPointsLoop (oracle : ℚ → Option ℚ) (duration chunkLengthSec : ℚ) :
    ℕ → ℚ → List ℚ
  | 0, _ => []
  | fuel + 1, currentPosition =>
    if currentPosition < duration then
      let idealCut := min (currentPosition + chunkLengthSec) duration
      if duration - 1 ≤ idealCut then
        []
      else
        let actualCut := (oracle idealCut).getD idealCut
        actualCut :: findCutPointsLoop oracle duration chunkLengthSec fuel actualCut
    else []

/-- The full cut-point list of calculateChunks: starts with 0, then the
interior cuts of pass 1, then duration. -/
def calcCutPoints (oracle : ℚ → Option ℚ) (duration chunkLengthSec : ℚ)
    (fuel : ℕ) : List ℚ :=
  (0 : ℚ) :: (findCutPointsLoop oracle duration chunkLengthSec fuel 0 ++ [duration])

/-- Pass 2 of calculateChunks, body of the for-loop over adjacent cut
points: materialize chunk i with overlap. -/
def mkChunk (cutPoints : List ℚ) (duration overlapDurationSec : ℚ) (i : ℕ) : Chunk :=
  let logicalStart := cutPoints.getD i 0
  let logicalEnd := cutPoints.getD (i + 1) 0
  let actualStart := if i = 0 then logicalStart
    else max 0 (logicalStart - overlapDurationSec)
  let actualEnd := if i = cutPoints.length - 2 then logicalEnd
    else min duration (logicalEnd + overlapDurationSec)
  let hasLeadingOverlap := 0 < i ∧ 0 < overlapDurationSec
  let hasTrailingOverlap := i < cutPoints.length - 2 ∧ 0 < overlapDurationSec
  { index := i
    logicalStart := logicalStart
    logicalEnd := logicalEnd
    start := actualStart
    stop := actualEnd
    duration := actualEnd - actualStart
    overlap :=
      { leading := if hasLeadingOverlap then overlapDurationSec else 0
        trailing := if hasTrailingOverlap then overlapDurationSec else 0
        leadingStart := if hasLeadingOverlap then some actualStart else none
        leadingEnd := if hasLeadingOverlap then some logicalStart else none
        trailingStart := if hasTrailingOverlap then some logicalEnd else none
        trailingEnd := if hasTrailingOverlap then some actualEnd else none }
    cutInfo :=
      { type := if i = cutPoints.length - 2 then CutType.endCut else CutType.silence
        silence := none } }

/-- The for-loop of pass 2: chunks are pushed in order of increasing i,
so after n iterations the list holds the chunks for i = 0 .. n-1. -/
def buildChunks (cutPoints : List ℚ) (duration overlapDurationSec : ℚ) :
    ℕ → List Chunk
  | 0 => []
  | n + 1 => buildChunks cutPoints duration overlapDurationSec n
      ++ [mkChunk cutPoints duration overlapDurationSec n]

/-- calculateChunks from src/chunker.js: chunkLengthSec is
chunkLengthMinutes times 60; pass 1 finds the cut points, pass 2
materializes one chunk per adjacent pair of cut points. Logging and
progress callbacks are pure observers and are omitted. -/
def calculateChunks (oracle : ℚ → Option ℚ)
    (duration chunkLengthMinutes overlapDurationSec : ℚ) (fuel : ℕ) : List Chunk :=
  let chunkLengthSec := chunkLengthMinutes * 60
  let cutPoints := calcCutPoints oracle duration chunkLengthSec fuel
  buildChunks cutPoints duration overlapDurationSec (cutPoints.length - 1)

/-! ## Retry policy and exponential backoff (src/groq-client.js) -/

/-- RetryConfig from src/groq-client.js. Delays are in milliseconds. -/
structure RetryConfig where
  maxRetries : ℕ
  initialDelayMs : ℚ
  maxDelayMs : ℚ
  backoffMultiplier : ℚ
deriving DecidableEq, Repr, Inhabited

/-- The exported RetryConfig constant (the default policy). -/
def defaultRetryConfig : RetryConfig :=
  { maxRetries := 5
    initialDelayMs := 1000
    maxDelayMs := 60000
    backoffMultiplier := 2 }

/-- calculateBackoffDelay from src/groq-client.js: the delay before the
retry following 0-indexed attempt number attempt. -/
def calculateBackoffDelay (attempt : ℕ) (config : RetryConfig) : ℚ :=
  let delay := config.initialDelayMs * config.backoffMultiplier ^ attempt
  min delay config.maxDelayMs

/-! ## Error classification (src/groq-client.js, classifyError) -/

/-- The ErrorType string constants of src/groq-client.js. -/
inductive ErrorType where
  | rateLimit
  | network
  | invalidAudio
  | auth
  | server
  | timeout
  | unknown
deriving DecidableEq, Repr, Inhabited

/-- A thrown JavaScript Error as classifyError sees it: its name and its
message. (Every value thrown in this codebase is an Error object, so the
String(error) fallback for primitive throws is not modelled.) -/
structure JsError where
  name : String
  message : String
deriving DecidableEq, Repr, Inhabited

/-- The record classifyError returns. -/
structure ErrorInfo where
  type : ErrorType
  retryable : Bool
  message : String
deriving DecidableEq, Repr, Inhabited

/-- Whether the character list s begins with the character list p. -/
def charsStartWith : List Char → List Char → Bool
  | _, [] => true
  | [], _ :: _ => false
  | c :: cs, p :: ps => c == p && charsStartWith cs ps

/-- Whether the character list p occurs contiguously inside s. -/
def charsContain : List Char → List Char → Bool
  | [], p => p.isEmpty
  | c :: cs, p => charsStartWith (c :: cs) p || charsContain cs p

/-- JavaScript's String.prototype.includes. -/
def strContains (s pat : String) : Bool :=
  charsContain s.toList pat.toList

/-- classifyError from src/groq-client.js. statusCode is an optional
number; JavaScript's truthiness test on it fails for both null/undefined
(none) and 0. -/
def classifyError (error : JsError) (statusCode : Option ℕ) : ErrorInfo :=
  let errorMessage := error.message
  if error.name = "AbortError" ∨ strContains errorMessage "timed out" then
    { type := ErrorType.timeout, retryable := true,
      message := "Request timed out - will retry" }
  else if error.name = "TypeError" ∧ strContains errorMessage "fetch" then
    { type := ErrorType.network, retryable := true,
      message := "Network error - check your connection" }
  else if strContains errorMessage "NetworkError" ∨ strContains errorMessage "Failed to fetch" then
    { type := ErrorType.network, retryable := true,
      message := "Connection failed - will retry" }
  else
    match statusCode with
    | some code =>
      if code = 0 then
        { type := ErrorType.unknown, retryable := false, message := errorMessage }
      else if code = 429 then
        { type := ErrorType.rateLimit, retryable := true,
          message := "Rate limited - waiting before retry" }
      else if code = 401 ∨ code = 403 then
        { type := ErrorType.auth, retryable := false,
          message := "Authentication failed - check your API key" }
      else if code = 400 then
        if strContains errorMessage "audio" ∨ strContains errorMessage "format" ∨
            strContains errorMessage "file" then
          { type := ErrorType.invalidAudio, retryable := false,
            message := "Invalid audio format - cannot process this chunk" }
        else
          { type := ErrorType.unknown, retryable := false, message := errorMessage }
      else if code = 500 ∨ code = 502 ∨ code = 503 ∨ code = 504 then
        { type := ErrorType.server, retryable := true,
          message := "Server error - will retry" }
      else
        { type := ErrorType.unknown, retryable := false, message := errorMessage }
    | none =>
      { type := ErrorType.unknown, retryable := false, message := errorMessage }

/-! ### The specification's classification table, as a separate
definition to be compared with classifyError (refinement). -/

/-- The spec's per-request-timeout row trigger. -/
abbrev specTimeout (e : JsError) : Prop :=
  e.name = "AbortError" ∨ strContains e.message "timed out"

/-- The spec's connection-failure row trigger. -/
abbrev specConnectionFailure (e : JsError) : Prop :=
  (e.name = "TypeError" ∧ strContains e.message "fetch") ∨
    strContains e.message "NetworkError" ∨ strContains e.message "Failed to fetch"

/-- The spec's notion of a 400 body mentioning audio/file/format. -/
abbrev specMentionsAudio (e : JsError) : Prop :=
  strContains e.message "audio" ∨ strContains e.message "file" ∨
    strContains e.message "format"

/-- The error kinds named by the specification's table. -/
inductive SpecErrorKind where
  | timeoutKind
  | networkKind
  | rateLimitKind
  | serverErrorKind
  | authKind
  | invalidAudioKind
  | unknownKind
deriving DecidableEq, Repr

/-- The specification's classification table, rows in the spec's order
with first-match semantics: timeout, connection failure, 429, 500-class,
401/403, 400-with-audio-message, then Unknown for any other HTTP 4xx and
for anything unclassified. -/
def specClassifyKind (e : JsError) (statusCode : Option ℕ) : SpecErrorKind :=
  if specTimeout e then SpecErrorKind.timeoutKind
  else if specConnectionFailure e then SpecErrorKind.networkKind
  else
    match statusCode with
    | some code =>
      if code = 429 then SpecErrorKind.rateLimitKind
      else if code = 500 ∨ code = 502 ∨ code = 503 ∨ code = 504 then
        SpecErrorKind.serverErrorKind
      else if code = 401 ∨ code = 403 then SpecErrorKind.authKind
      else if code = 400 ∧ specMentionsAudio e then SpecErrorKind.invalidAudioKind
      else SpecErrorKind.unknownKind
    | none => SpecErrorKind.unknownKind

/-- The retryable column of the specification's table. -/
def specRetryable : SpecErrorKind → Bool
  | SpecErrorKind.timeoutKind => true
  | SpecErrorKind.networkKind => true
  | SpecErrorKind.rateLimitKind => true
  | SpecErrorKind.serverErrorKind => true
  | SpecErrorKind.authKind => false
  | SpecErrorKind.invalidAudioKind => false
  | SpecErrorKind.unknownKind => false

/-- The correspondence between the spec's kinds and the code's ErrorType
constants. -/
def specKindToErrorType : SpecErrorKind → ErrorType
  | SpecErrorKind.timeoutKind => ErrorType.timeout
  | SpecErrorKind.networkKind => ErrorType.network
  | SpecErrorKind.rateLimitKind => ErrorType.rateLimit
  | SpecErrorKind.serverErrorKind => ErrorType.server
  | SpecErrorKind.authKind => ErrorType.auth
  | SpecErrorKind.invalidAudioKind => ErrorType.invalidAudio
  | SpecErrorKind.unknownKind => ErrorType.unknown

/-! ## Transcription dispatcher (src/groq-client.js, transcribeChunks) -/

/-- A service word with chunk-relative timestamps, as returned in the
verbose_json words array. The JavaScript field named end is called stop
here. -/
structure TWord where
  word : String
  start : ℚ
  stop : ℚ
deriving DecidableEq, Repr, Inhabited

/-- One element of the results array built by transcribeChunks. A
success carries text and words; a failure carries the error message and
the classified errorType (fields that are undefined in JavaScript are
modelled as the empty string / the empty list / none). -/
structure TResult where
  chunk : Chunk
  success : Bool
  text : String
  words : List TWord
  error : String
  errorType : Option ErrorType
deriving DecidableEq, Repr, Inhabited

/-- What extracting and transcribing chunk i (extractChunkFn plus
transcribeChunkWithRetry, the awaited network round-trips included)
ultimately produces: a transcription, or a thrown error possibly
carrying the statusCode property that transcribeChunk attaches from the
HTTP response. -/
inductive ChunkOutcome where
  | ok (text : String) (words : List TWord)
  | err (e : JsError) (statusCode : Option ℕ)
deriving DecidableEq, Repr, Inhabited

/-- The first run of three consecutive digits in a character list, as
matched by the regular expression used in transcribeChunks to recover a
status code from an error message. -/
def findThreeDigits : List Char → Option ℕ
  | c1 :: c2 :: c3 :: rest =>
    if c1.isDigit ∧ c2.isDigit ∧ c3.isDigit then
      some ((c1.toNat - 48) * 100 + (c2.toNat - 48) * 10 + (c3.toNat - 48))
    else findThreeDigits (c2 :: c3 :: rest)
  | _ => none

/-- Helper for the status-code enhancement: when the message is
nonempty, replace the status with the first three-digit run found in
it, if any; otherwise keep the status unchanged. -/
def statusFromMessage (e : JsError) (statusCode : Option ℕ) : Option ℕ :=
  if ¬ e.message = "" then
    match findThreeDigits e.message.toList with
    | some m => some m
    | none => statusCode
  else statusCode

/-- The status-code enhancement in the catch block of transcribeChunks:
when the error has no truthy statusCode (none, or the falsy number 0)
and a nonempty message, the first three-digit run found in the message
is used as the status. -/
def enhanceStatusCode (e : JsError) (statusCode : Option ℕ) : Option ℕ :=
  match statusCode with
  | some n => if n = 0 then statusFromMessage e (some 0) else some n
  | none => statusFromMessage e none

/-- The main loop of transcribeChunks (src/groq-client.js), carrying the
0-based index of the chunk at the head of the remaining list. Returns
the results array together with the list of indices for which the
onChunkStart hook fired. Cancellation is not exercised here (shouldAbort
is the default constantly-false predicate), and the inter-chunk delay
and the other hooks have no observable effect on the returned state. -/
def transcribeChunksLoop (outcome : ℕ → ChunkOutcome) :
    List Chunk → ℕ → List TResult × List ℕ
  | [], _ => ([], [])
  | chunk :: rest, i =>
    match outcome i with
    | ChunkOutcome.ok text words =>
      let next := transcribeChunksLoop outcome rest (i + 1)
      ({ chunk := chunk, success := true, text := text, words := words,
          error := "", errorType := none } :: next.1, i :: next.2)
    | ChunkOutcome.err e sc =>
      let enhanced := enhanceStatusCode e sc
      let res : TResult :=
        { chunk := chunk, success := false, text := "", words := [],
          error := e.message, errorType := some (classifyError e enhanced).type }
      if (classifyError e enhanced).type = ErrorType.auth then
        ([res], [i])
      else
        let next := transcribeChunksLoop outcome rest (i + 1)
        (res :: next.1, i :: next.2)

/-- transcribeChunks from src/groq-client.js, with per-chunk round trips
abstracted into the outcome oracle. -/
def transcribeChunks (chunks : List Chunk) (outcome : ℕ → ChunkOutcome) :
    List TResult × List ℕ :=
  transcribeChunksLoop outcome chunks 0

/-- Chunk index n fails and its classification (via the status-code
enhancement of the catch block) is Auth. -/
def authFailureAt (outcome : ℕ → ChunkOutcome) (n : ℕ) : Prop :=
  ∃ e sc, outcome n = ChunkOutcome.err e sc ∧
    (classifyError e (enhanceStatusCode e sc)).type = ErrorType.auth

/-! ## Transcript merger (src/deduplication.js) -/

/-- A word lifted to absolute time with its centrality score, as pushed
onto allWordsWithAbsoluteTime in mergeTranscriptsWithDeduplication. -/
structure DWord where
  word : String
  absoluteStart : ℚ
  absoluteEnd : ℚ
  centrality : ℚ
  chunkIndex : ℕ
  original : TWord
deriving DecidableEq, Repr, Inhabited

/-- An element of the allWords debug list: the word together with its
deduplicated and inOverlap flags (the JavaScript object spreads the word
fields inline; here they sit in the word field). -/
structure StatusWord where
  word : DWord
  deduplicated : Bool
  inOverlap : Bool
deriving DecidableEq, Repr, Inhabited

/-- The stats record of a merge result. -/
structure MergeStats where
  overlapsMerged : ℕ
  wordsDeduplicated : ℕ
deriving DecidableEq, Repr, Inhabited

/-- The result of mergeTranscriptsWithDeduplication /
deduplicateByTimestamp. Branches that do not produce an allWords field
in JavaScript are modelled with an empty allWords list. -/
structure MergeResult where
  text : String
  words : List DWord
  allWords : List StatusWord
  stats : MergeStats
deriving DecidableEq, Repr, Inhabited

/-- The record stored under a chunk index in the overlapRegions map:
either an instruction to stop emitting the chunk at cutoffIndex, or to
start emitting it at startIndex; overlapWordsCount is the count the
instruction contributes to wordsDeduplicated. (A JavaScript entry holds
exactly one of the two index keys.) -/
inductive OverlapEntry where
  | cutoff (cutoffIndex : ℕ) (overlapWordsCount : ℕ)
  | startFrom (startIndex : ℕ) (overlapWordsCount : ℕ)
deriving DecidableEq, Repr

/-- Map.set on the overlapRegions map: later writes to the same chunk
index overwrite earlier ones. -/
def mapSet (m : ℕ → Option OverlapEntry) (k : ℕ) (v : OverlapEntry) :
    ℕ → Option OverlapEntry :=
  fun x => if x = k then some v else m x

/-- The loop computing thisChunkOverlapStartIdx: the index of the first
word whose absoluteStart is at least overlapStart − 0.1, or the length
of the list when there is none. -/
def overlapStartIdx (overlapStart : ℚ) : List DWord → ℕ
  | [] => 0
  | w :: ws =>
    if w.absoluteStart < overlapStart - 1/10 then overlapStartIdx overlapStart ws + 1
    else 0

/-- The loop computing nextChunkOverlapEndIdx: one past the last word of
the longest prefix whose absoluteStart is at most overlapEnd + 0.1 (the
loop breaks at the first word beyond that bound). -/
def overlapEndIdx (overlapEnd : ℚ) : List DWord → ℕ
  | [] => 0
  | w :: ws =>
    if w.absoluteStart > overlapEnd + 1/10 then 0
    else overlapEndIdx overlapEnd ws + 1

/-- The running state of step 2 of deduplicateByTimestamp: the
overlapRegions map and the overlapRegionsProcessed set. The processed
pairs are recorded in insertion order; adjacent pairs of the sorted
deduplicated index list are pairwise distinct, so the list's length is
the JavaScript Set's size. -/
structure OverlapScanState where
  regions : ℕ → Option OverlapEntry
  processed : List (ℕ × ℕ)

/-- One iteration of step 2 of deduplicateByTimestamp, for the adjacent
chunk pair (pair.1, pair.2): detect a timestamp overlap between the two
chunks' word ranges, pick the authoritative side by mean centrality, and
record the cut instructions. -/
def scanPair (wordsByChunk : ℕ → List DWord) (st : OverlapScanState)
    (pair : ℕ × ℕ) : OverlapScanState :=
  let chunkWords := wordsByChunk pair.1
  let nextChunkWords := wordsByChunk pair.2
  if chunkWords.length = 0 ∨ nextChunkWords.length = 0 then st
  else
    let thisChunkEnd := (chunkWords.getLastD default).absoluteEnd
    let nextChunkStart := nextChunkWords.headI.absoluteStart
    if thisChunkEnd > nextChunkStart then
      let overlapStart := nextChunkStart
      let overlapEnd := thisChunkEnd
      let thisChunkOverlapStartIdx := overlapStartIdx overlapStart chunkWords
      let nextChunkOverlapEndIdx := overlapEndIdx overlapEnd nextChunkWords
      let thisChunkOverlapWords := chunkWords.drop thisChunkOverlapStartIdx
      let nextChunkOverlapWords := nextChunkWords.take nextChunkOverlapEndIdx
      let thisChunkCentrality : ℚ :=
        if 0 < thisChunkOverlapWords.length then
          ((thisChunkOverlapWords.map (fun w => w.centrality)).sum) /
            (thisChunkOverlapWords.length : ℚ)
        else 0
      let nextChunkCentrality : ℚ :=
        if 0 < nextChunkOverlapWords.length then
          ((nextChunkOverlapWords.map (fun w => w.centrality)).sum) /
            (nextChunkOverlapWords.length : ℚ)
        else 0
      let useNextChunk := nextChunkCentrality > thisChunkCentrality
      let regions :=
        if useNextChunk then
          mapSet (mapSet st.regions pair.1
              (OverlapEntry.cutoff thisChunkOverlapStartIdx thisChunkOverlapWords.length))
            pair.2 (OverlapEntry.startFrom 0 0)
        else
          mapSet (mapSet st.regions pair.1
              (OverlapEntry.cutoff chunkWords.length 0))
            pair.2 (OverlapEntry.startFrom nextChunkOverlapEndIdx nextChunkOverlapWords.length)
      { regions := regions, processed := st.processed ++ [(pair.1, pair.2)] }
    else st

/-- The start and end indices governing step-3 emission for a chunk with
len words: a cutoff entry sets endIdx, a startFrom entry sets startIdx.
A chunk with no entry emits everything. -/
def chunkSliceBounds (regions : ℕ → Option OverlapEntry) (len : ℕ) (k : ℕ) : ℕ × ℕ :=
  match regions k with
  | none => (0, len)
  | some (OverlapEntry.cutoff c _) => (0, c)
  | some (OverlapEntry.startFrom s _) => (s, len)

/-- The contribution of a chunk's entry to wordsDeduplicated in step 3. -/
def chunkDropCount (regions : ℕ → Option OverlapEntry) (k : ℕ) : ℕ :=
  match regions k with
  | none => 0
  | some (OverlapEntry.cutoff _ n) => n
  | some (OverlapEntry.startFrom _ n) => n

/-- The inner loop of step 3 over a chunk's words, carrying the current
index j: a word is pushed onto finalWords when startIdx ≤ j < endIdx. -/
def emitWords : List DWord → ℕ → ℕ → ℕ → List DWord
  | [], _, _, _ => []
  | w :: ws, j, startIdx, endIdx =>
    (if startIdx ≤ j ∧ j < endIdx then [w] else []) ++ emitWords ws (j + 1) startIdx endIdx

/-- The same loop's pushes onto allWordsWithStatus: every word is
recorded, with deduplicated set when it was not emitted. -/
def statusWords : List DWord → ℕ → ℕ → ℕ → Bool → List StatusWord
  | [], _, _, _, _ => []
  | w :: ws, j, startIdx, endIdx, inOv =>
    { word := w, deduplicated := ! decide (startIdx ≤ j ∧ j < endIdx), inOverlap := inOv } ::
      statusWords ws (j + 1) startIdx endIdx inOv

/-- deduplicateByTimestamp from src/deduplication.js (the current,
order-preserving algorithm): group words by chunk in arrival order,
resolve each adjacent overlap by mean centrality, then emit each chunk's
retained index range in order. The unused overlapDurationSec parameter
is kept as in the source. -/
def deduplicateByTimestamp (words : List DWord) (_overlapDurationSec : ℚ) : MergeResult :=
  let wordsByChunk : ℕ → List DWord :=
    fun k => words.filter (fun w => w.chunkIndex == k)
  let chunkIndices : List ℕ :=
    ((words.map (fun w => w.chunkIndex)).dedup).insertionSort (· ≤ ·)
  if chunkIndices.length = 0 then
    { text := "", words := [], allWords := [], stats := ⟨0, 0⟩ }
  else
    let scan := (chunkIndices.zip chunkIndices.tail).foldl (scanPair wordsByChunk)
      ⟨fun _ => none, []⟩
    let finalWords := chunkIndices.flatMap (fun k =>
      let chunkWords := wordsByChunk k
      let bounds := chunkSliceBounds scan.regions chunkWords.length k
      emitWords chunkWords 0 bounds.1 bounds.2)
    let wordsDeduplicated := (chunkIndices.map (fun k => chunkDropCount scan.regions k)).sum
    let allWords := chunkIndices.flatMap (fun k =>
      let chunkWords := wordsByChunk k
      let bounds := chunkSliceBounds scan.regions chunkWords.length k
      let inOv := scan.processed.contains (k - 1, k) || scan.processed.contains (k, k + 1)
      statusWords chunkWords 0 bounds.1 bounds.2 inOv)
    let text := String.intercalate " " (finalWords.map (fun w => w.word))
    { text := text, words := finalWords, allWords := allWords,
      stats := ⟨scan.processed.length, wordsDeduplicated⟩ }

/-- tokenize from src/deduplication.js: split on whitespace, drop empty
tokens. -/
def tokenize (text : String) : List String :=
  (text.split (fun c => c.isWhitespace)).filter (fun w => 0 < w.length)

/-- The punctuation characters stripped by normalizeWord (the regex
character class - period, comma, bangs, quotes, brackets, braces). -/
def punctuationChars : List Char :=
  ['.', ',', '!', '?', ';', ':', Char.ofNat 39, Char.ofNat 34,
    '(', ')', '[', ']', Char.ofNat 123, Char.ofNat 125]

/-- normalizeWord from src/deduplication.js: lower-case and strip the
punctuation class (ASCII case folding, which is what the compared
transcript tokens use). -/
def normalizeWord (word : String) : String :=
  String.mk ((word.toList.map Char.toLower).filter (fun c => ! punctuationChars.contains c))

/-- The while loop of findMatchFromPosition: the length of the common
run of normalized-equal tokens at the heads of the two lists. -/
def countMatchRun : List String → List String → ℕ
  | w1 :: ws1, w2 :: ws2 =>
    if normalizeWord w1 = normalizeWord w2 then countMatchRun ws1 ws2 + 1 else 0
  | _, _ => 0

/-- The best-overlap record of findBestOverlap. -/
structure BestOverlap where
  length : ℕ
  startIndex1 : ℕ
  endIndex2 : ℕ
deriving DecidableEq, Repr, Inhabited

/-- findMatchFromPosition from src/deduplication.js: anchor on the first
position of head2 whose normalized token equals the normalized token of
tail1 at startIndex1, then extend while tokens match; returns the match
length and the end position in head2. -/
def findMatchFromPosition (tail1 head2 : List String) (startIndex1 : ℕ) : ℕ × ℕ :=
  let firstWord := normalizeWord (tail1.getD startIndex1 "")
  match head2.findIdx? (fun w => normalizeWord w == firstWord) with
  | none => (0, 0)
  | some startIndex2 =>
    let matchLength := countMatchRun (tail1.drop startIndex1) (head2.drop startIndex2)
    (matchLength, startIndex2 + matchLength)

/-- findBestOverlap from src/deduplication.js: try every start position
in tail1, keeping the strictly longest match. -/
def findBestOverlap (tail1 head2 : List String) : BestOverlap :=
  (List.range tail1.length).foldl
    (fun best i =>
      let matchResult := findMatchFromPosition tail1 head2 i
      if matchResult.1 > best.length then
        { length := matchResult.1, startIndex1 := i, endIndex2 := matchResult.2 }
      else best)
    { length := 0, startIndex1 := 0, endIndex2 := 0 }

/-- The result record of mergeOverlappingTexts. -/
structure TextMergeResult where
  merged : String
  wordsDeduplicated : ℕ
deriving DecidableEq, Repr, Inhabited

/-- mergeOverlappingTexts from src/deduplication.js: search the last 30%
of the accumulated text and the first 30% of the new text for the
longest normalized token run; if it has length at least 2, drop the
matched head of the new text. (Math.ceil of 0.3 times a token count is
exact in floating point for these magnitudes and is modelled as the
rational ceiling.) -/
def mergeOverlappingTexts (text1 text2 : String) : TextMergeResult :=
  let words1 := tokenize text1
  let words2 := tokenize text2
  let searchWindow1 := min words1.length ((words1.length * 3 + 9) / 10)
  let searchWindow2 := min words2.length ((words2.length * 3 + 9) / 10)
  let tail1 := words1.drop (words1.length - searchWindow1)
  let head2 := words2.take searchWindow2
  let overlap := findBestOverlap tail1 head2
  if 2 ≤ overlap.length then
    { merged := text1 ++ " " ++ String.intercalate " " (words2.drop overlap.endIndex2),
      wordsDeduplicated := overlap.length }
  else
    { merged := text1 ++ " " ++ text2, wordsDeduplicated := 0 }

/-- fallbackTextMerge from src/deduplication.js: a linear pass over the
remaining results, merging each trimmed text into the accumulator. The
fold state is (mergedText, totalWordsDeduplicated, overlapsMerged). -/
def fallbackTextMerge (results : List TResult) (overlapDurationSec : ℚ) : MergeResult :=
  let init : String × ℕ × ℕ := (results.headI.text.trim, 0, 0)
  let final := (results.drop 1).foldl
    (fun st r =>
      let currentText := r.text.trim
      if 0 < overlapDurationSec then
        let mergeResult := mergeOverlappingTexts st.1 currentText
        (mergeResult.merged, st.2.1 + mergeResult.wordsDeduplicated,
          if 0 < mergeResult.wordsDeduplicated then st.2.2 + 1 else st.2.2)
      else (st.1 ++ " " ++ currentText, st.2.1, st.2.2))
    init
  { text := final.1, words := [], allWords := [],
    stats := ⟨final.2.2, final.2.1⟩ }

/-- mergeTranscriptsWithDeduplication from src/deduplication.js: filter
to successful results with (truthy, i.e. nonempty) text; if none remain
return the empty merge; otherwise lift every word of every surviving
result to absolute time with a centrality score and run the
timestamp-based deduplication, falling back to the text merge when no
result carried word timestamps. -/
def mergeTranscriptsWithDeduplication (results : List TResult)
    (overlapDurationSec : ℚ) : MergeResult :=
  let successfulResults := results.filter (fun r => r.success && ! (r.text == ""))
  if successfulResults.length = 0 then
    { text := "", words := [], allWords := [], stats := ⟨0, 0⟩ }
  else
    let allWordsWithAbsoluteTime := successfulResults.flatMap (fun result =>
      if 0 < result.words.length then
        result.words.map (fun word =>
          let chunkStart := result.chunk.start
          let absoluteStart := chunkStart + word.start
          let absoluteEnd := chunkStart + word.stop
          let distanceFromStart := absoluteStart - result.chunk.logicalStart
          let distanceFromEnd := result.chunk.logicalEnd - absoluteEnd
          let minDistanceFromBoundary := min distanceFromStart distanceFromEnd
          let chunkDuration := result.chunk.logicalEnd - result.chunk.logicalStart
          let centrality := minDistanceFromBoundary / (chunkDuration / 2)
          { word := word.word, absoluteStart := absoluteStart, absoluteEnd := absoluteEnd,
            centrality := centrality, chunkIndex := result.chunk.index,
            original := word : DWord })
      else [])
    if 0 < allWordsWithAbsoluteTime.length then
      deduplicateByTimestamp allWordsWithAbsoluteTime overlapDurationSec
    else
      fallbackTextMerge successfulResults overlapDurationSec

def overlapSliceA (wsA wsB : List DWord) : List DWord :=
  wsA.drop (overlapStartIdx wsB.headI.absoluteStart wsA)

def overlapSliceB (wsA wsB : List DWord) : List DWord :=
  wsB.take (overlapEndIdx (wsA.getLastD default).absoluteEnd wsB)

/-- The mean centrality of a set of overlap words, 0 for the empty set
(the inline ternary of deduplicateByTimestamp step 2). -/
def meanCentrality (ws : List DWord) : ℚ :=
  if 0 < ws.length then (ws.map (fun w => w.centrality)).sum / (ws.length : ℚ) else 0

/-- The sorted list of distinct chunk indices of a word list (step 1 of
deduplicateByTimestamp). -/
def chunkIndicesOf (words : List DWord) : List ℕ :=
  ((words.map (fun w => w.chunkIndex)).dedup).insertionSort (· ≤ ·)

/-- The words of a given chunk, in arrival order (the wordsByChunk
grouping of deduplicateByTimestamp). -/
def wordsOfChunk (words : List DWord) (k : ℕ) : List DWord :=
  words.filter (fun w => w.chunkIndex == k)

/-- No adjacent chunk pair overlaps: for every adjacent pair of the
plan's chunk indices, the last word of the earlier chunk ends no later
than the first word of the later chunk starts. -/
def noAdjacentOverlap (words : List DWord) : Prop :=
  ∀ p ∈ (chunkIndicesOf words).zip (chunkIndicesOf words).tail,
    ¬ ((wordsOfChunk words p.1).getLastD default).absoluteEnd >
      (wordsOfChunk words p.2).headI.absoluteStart

/-- The invariant maintained by step 2 on the overlapRegions map: every
cutoff index is within its chunk and its recorded count is the number
of indices it cuts away; every start index likewise. -/
def entryInvariantF (f : ℕ → List DWord) (regions : ℕ → Option OverlapEntry) : Prop :=
  ∀ k, match regions k with
    | none => True
    | some (OverlapEntry.cutoff c n) => c ≤ (f k).length ∧ n = (f k).length - c
    | some (OverlapEntry.startFrom s n) => s ≤ (f k).length ∧ n = s

/-- The step-2 scan state of deduplicateByTimestamp for a given input. -/
def dedupScan (words : List DWord) : OverlapScanState :=
  ((chunkIndicesOf words).zip (chunkIndicesOf words).tail).foldl
    (scanPair (fun k => words.filter (fun w => w.chunkIndex == k)))
    ⟨fun _ => none, []⟩

def chunkA : Chunk :=
  { index := 0, logicalStart := 0, logicalEnd := 10, start := 0, stop := 12,
    duration := 12, overlap := default, cutInfo := default }

def chunkB : Chunk :=
  { index := 1, logicalStart := 10, logicalEnd := 20, start := 8, stop := 20,
    duration := 12, overlap := default, cutInfo := default }

def tieResults : List TResult :=
  [ { chunk := chunkA, success := true, text := "x",
      words := [⟨"x", 49/5, 51/5⟩], error := "", errorType := none },
    { chunk := chunkB, success := true, text := "y",
      words := [⟨"y", 9/5, 11/5⟩], error := "", errorType := none } ]

def wordX : DWord :=
  { word := "x", absoluteStart := 49/5, absoluteEnd := 51/5, centrality := -1/25,
    chunkIndex := 0, original := ⟨"x", 49/5, 51/5⟩ }

def wordY : DWord :=
  { word := "y", absoluteStart := 49/5, absoluteEnd := 51/5, centrality := -1/25,
    chunkIndex := 1, original := ⟨"y", 9/5, 11/5⟩ }

def chunkA5 : Chunk :=
  { index := 0, logicalStart := 0, logicalEnd := 10, start := 0, stop := 12,
    duration := 12, overlap := default, cutInfo := default }

def chunkB5 : Chunk :=
  { index := 1, logicalStart := 10, logicalEnd := 20, start := 8, stop := 20,
    duration := 12, overlap := default, cutInfo := default }

def ovResults : List TResult :=
  [ { chunk := chunkA5, success := true, text := "a",
      words := [⟨"a", 0, 21/2⟩], error := "", errorType := none },
    { chunk := chunkB5, success := true, text := "b",
      words := [⟨"b", 12/5, 17/5⟩], error := "", errorType := none } ]

def wordA0 : DWord :=
  { word := "a", absoluteStart := 0, absoluteEnd := 21/2, centrality := -1/10,
    chunkIndex := 0, original := ⟨"a", 0, 21/2⟩ }

def wordB0 : DWord :=
  { word := "b", absoluteStart := 52/5, absoluteEnd := 57/5, centrality := 2/25,
    chunkIndex := 1, original := ⟨"b", 12/5, 17/5⟩ }

/-! ### Planner invariants -/

theorem findCutPointsLoop_bounds (oracle : ℚ → Option ℚ) (d len : ℚ)
    (hd : 0 ≤ d) (hlen : 0 ≤ len)
    (hor : ∀ t c, oracle t = some c → 0 ≤ c ∧ c ≤ d) :
    ∀ (fuel : ℕ) (pos : ℚ), 0 ≤ pos →
      ∀ c ∈ findCutPointsLoop oracle d len fuel pos, 0 ≤ c ∧ c ≤ d := by
  intro fuel
  induction fuel with
  | zero => intro pos _ c hc; simp [findCutPointsLoop] at hc
  | succ n ih =>
    intro pos hpos c hc
    rw [findCutPointsLoop] at hc
    by_cases h1 : pos < d
    · simp only [if_pos h1] at hc
      by_cases h2 : d - 1 ≤ min (pos + len) d
      · simp only [if_pos h2] at hc
        simp at hc
      · simp only [if_neg h2, List.mem_cons] at hc
        have hcut : 0 ≤ (oracle (min (pos + len) d)).getD (min (pos + len) d) ∧
            (oracle (min (pos + len) d)).getD (min (pos + len) d) ≤ d := by
          cases horacle : oracle (min (pos + len) d) with
          | none =>
            simp only [Option.getD_none]
            exact ⟨le_min (by linarith) hd, min_le_right _ _⟩
          | some c' =>
            simp only [Option.getD_some]
            exact hor _ _ horacle
        rcases hc with rfl | hc
        · exact hcut
        · exact ih _ hcut.1 c hc
    · simp [if_neg h1] at hc

theorem calcCutPoints_length (oracle : ℚ → Option ℚ) (d len : ℚ) (fuel : ℕ) :
    (calcCutPoints oracle d len fuel).length =
      (findCutPointsLoop oracle d len fuel 0).length + 2 := by
  simp [calcCutPoints]

theorem calcCutPoints_first (oracle : ℚ → Option ℚ) (d len : ℚ) (fuel : ℕ) :
    (calcCutPoints oracle d len fuel).getD 0 0 = 0 := by
  simp [calcCutPoints]

theorem getD_cons_append_singleton (l : List ℚ) (a b : ℚ) (n : ℕ)
    (h : n = l.length + 1) : (a :: (l ++ [b])).getD n 0 = b := by
  subst h
  rw [List.getD_cons_succ, List.getD_append_right _ _ _ _ (le_refl _)]
  simp

theorem calcCutPoints_last (oracle : ℚ → Option ℚ) (d len : ℚ) (fuel : ℕ) :
    (calcCutPoints oracle d len fuel).getD
      ((calcCutPoints oracle d len fuel).length - 1) 0 = d := by
  rw [calcCutPoints_length]
  exact getD_cons_append_singleton _ _ _ _ (by omega)

theorem calcCutPoints_bounds (oracle : ℚ → Option ℚ) (d len : ℚ) (fuel : ℕ)
    (hd : 0 ≤ d) (hlen : 0 ≤ len)
    (hor : ∀ t c, oracle t = some c → 0 ≤ c ∧ c ≤ d) :
    ∀ c ∈ calcCutPoints oracle d len fuel, 0 ≤ c ∧ c ≤ d := by
  intro c hc
  simp only [calcCutPoints, List.mem_cons, List.mem_append] at hc
  rcases hc with rfl | hc | rfl | h
  · exact ⟨le_refl 0, hd⟩
  · exact findCutPointsLoop_bounds oracle d len hd hlen hor fuel 0 (le_refl 0) c hc
  · exact ⟨hd, le_refl _⟩
  · simp at h

theorem calcCutPoints_getD_bounds (oracle : ℚ → Option ℚ) (d len : ℚ) (fuel : ℕ)
    (hd : 0 ≤ d) (hlen : 0 ≤ len)
    (hor : ∀ t c, oracle t = some c → 0 ≤ c ∧ c ≤ d) :
    ∀ i, 0 ≤ (calcCutPoints oracle d len fuel).getD i 0 ∧
      (calcCutPoints oracle d len fuel).getD i 0 ≤ d := by
  intro i
  by_cases h : i < (calcCutPoints oracle d len fuel).length
  · rw [List.getD_eq_getElem _ _ h]
    exact calcCutPoints_bounds oracle d len fuel hd hlen hor _ (List.getElem_mem h)
  · rw [List.getD_eq_default _ _ (le_of_not_lt h)]
    exact ⟨le_refl 0, hd⟩

theorem buildChunks_length (cp : List ℚ) (d ov : ℚ) (n : ℕ) :
    (buildChunks cp d ov n).length = n := by
  induction n with
  | zero => simp [buildChunks]
  | succ m ih => simp [buildChunks, ih]

theorem buildChunks_getD (cp : List ℚ) (d ov : ℚ) (n i : ℕ) (h : i < n) :
    (buildChunks cp d ov n).getD i default = mkChunk cp d ov i := by
  induction n with
  | zero => omega
  | succ m ih =>
    rw [buildChunks]
    rcases Nat.lt_or_ge i m with h' | h'
    · rw [List.getD_append _ _ _ _ (by rw [buildChunks_length]; exact h')]
      exact ih h'
    · have him : i = m := by omega
      subst him
      rw [List.getD_append_right _ _ _ _ (by simp [buildChunks_length])]
      simp [buildChunks_length]

theorem calculateChunks_length (oracle : ℚ → Option ℚ)
    (d chm ov : ℚ) (fuel : ℕ) :
    (calculateChunks oracle d chm ov fuel).length =
      (calcCutPoints oracle d (chm * 60) fuel).length - 1 := by
  simp [calculateChunks, buildChunks_length]

theorem calculateChunks_getD (oracle : ℚ → Option ℚ)
    (d chm ov : ℚ) (fuel : ℕ) (i : ℕ)
    (h : i < (calculateChunks oracle d chm ov fuel).length) :
    (calculateChunks oracle d chm ov fuel).getD i default =
      mkChunk (calcCutPoints oracle d (chm * 60) fuel) d ov i := by
  rw [calculateChunks_length] at h
  exact buildChunks_getD _ _ _ _ _ h

/-- C1: for every chunk list returned by the planner (calculateChunks)
on a file of duration d with a valid config (nonnegative duration,
chunk length and overlap; the silence oracle only ever proposes cut
points inside the file, which analyzeWindowForSilence guarantees by
clamping its window to the interval from 0 to the duration): the plan is
nonempty; the first chunk's logicalStart is 0 and its leading overlap is
0; the last chunk's logicalEnd is d and its trailing overlap is 0;
adjacent chunks agree (logicalStart of chunk i+1 equals logicalEnd of
chunk i); and every chunk satisfies 0 ≤ actualStart ≤ logicalStart and
logicalEnd ≤ actualEnd ≤ d. -/
theorem claim1_planner_invariants (oracle : ℚ → Option ℚ)
    (duration chunkLengthMinutes overlapDurationSec : ℚ) (fuel : ℕ)
    (hd : 0 ≤ duration) (hlen : 0 ≤ chunkLengthMinutes)
    (hov : 0 ≤ overlapDurationSec)
    (hor : ∀ t c, oracle t = some c → 0 ≤ c ∧ c ≤ duration) :
    ∀ cs, cs = calculateChunks oracle duration chunkLengthMinutes overlapDurationSec fuel →
      cs ≠ [] ∧
      (cs.getD 0 default).logicalStart = 0 ∧
      (cs.getD 0 default).overlap.leading = 0 ∧
      (cs.getD (cs.length - 1) default).logicalEnd = duration ∧
      (cs.getD (cs.length - 1) default).overlap.trailing = 0 ∧
      (∀ i, i + 1 < cs.length →
        (cs.getD (i + 1) default).logicalStart = (cs.getD i default).logicalEnd) ∧
      (∀ i, i < cs.length →
        0 ≤ (cs.getD i default).start ∧
        (cs.getD i default).start ≤ (cs.getD i default).logicalStart ∧
        (cs.getD i default).logicalEnd ≤ (cs.getD i default).stop ∧
        (cs.getD i default).stop ≤ duration) := by
  intro cs hcs
  have hlen60 : 0 ≤ chunkLengthMinutes * 60 := by positivity
  set cp := calcCutPoints oracle duration (chunkLengthMinutes * 60) fuel with hcp
  have hcpb := calcCutPoints_getD_bounds oracle duration (chunkLengthMinutes * 60) fuel
    hd hlen60 hor
  have hcpl : cp.length = (findCutPointsLoop oracle duration (chunkLengthMinutes * 60) fuel 0).length + 2 :=
    calcCutPoints_length _ _ _ _
  have hlength : cs.length = cp.length - 1 := by
    rw [hcs]; exact calculateChunks_length _ _ _ _ _
  have hne : cs ≠ [] := by
    have : 0 < cs.length := by omega
    exact List.ne_nil_of_length_pos this
  have hget : ∀ i, i < cs.length → cs.getD i default = mkChunk cp duration overlapDurationSec i := by
    intro i hi
    rw [hcs]
    exact calculateChunks_getD oracle duration chunkLengthMinutes overlapDurationSec fuel i
      (by rw [← hcs]; exact hi)
  refine ⟨hne, ?_, ?_, ?_, ?_, ?_, ?_⟩
  · rw [hget 0 (by omega)]
    simp only [mkChunk]
    exact calcCutPoints_first _ _ _ _
  · rw [hget 0 (by omega)]
    simp [mkChunk]
  · rw [hget (cs.length - 1) (by omega)]
    simp only [mkChunk]
    have : cs.length - 1 + 1 = cp.length - 1 := by omega
    rw [this]
    exact calcCutPoints_last _ _ _ _
  · rw [hget (cs.length - 1) (by omega)]
    have hix : ¬ (cs.length - 1 < cp.length - 2) := by omega
    simp [mkChunk, hix]
  · intro i hi
    rw [hget (i + 1) hi, hget i (by omega)]
    simp [mkChunk]
  · intro i hi
    rw [hget i hi]
    have hls := hcpb i
    have hle := hcpb (i + 1)
    simp only [mkChunk]
    refine ⟨?_, ?_, ?_, ?_⟩
    · by_cases h0 : i = 0
      · simp only [if_pos h0]
        exact hls.1
      · simp only [if_neg h0]
        exact le_max_left _ _
    · by_cases h0 : i = 0
      · simp [if_pos h0]
      · simp only [if_neg h0]
        exact max_le hls.1 (by linarith [hls.1])
    · by_cases hlast : i = cp.length - 2
      · simp [if_pos hlast]
      · simp only [if_neg hlast]
        exact le_min hle.2 (by linarith [hle.1])
    · by_cases hlast : i = cp.length - 2
      · simp only [if_pos hlast]
        exact hle.2
      · simp only [if_neg hlast]
        exact min_le_left _ _

/-- Witness for C1 at a concrete input: a 100-second file, 1-minute
chunks, 10-second overlap, no silences found. -/
theorem claim1_planner_invariants_witness :
    calculateChunks (fun _ => none) 100 1 10 5 ≠ [] ∧
    ((calculateChunks (fun _ => none) 100 1 10 5).getD 0 default).logicalStart = 0 ∧
    ((calculateChunks (fun _ => none) 100 1 10 5).getD 0 default).overlap.leading = 0 ∧
    ((calculateChunks (fun _ => none) 100 1 10 5).getD
      ((calculateChunks (fun _ => none) 100 1 10 5).length - 1) default).logicalEnd = 100 ∧
    ((calculateChunks (fun _ => none) 100 1 10 5).getD
      ((calculateChunks (fun _ => none) 100 1 10 5).length - 1) default).overlap.trailing = 0 ∧
    (∀ i, i + 1 < (calculateChunks (fun _ => none) 100 1 10 5).length →
      ((calculateChunks (fun _ => none) 100 1 10 5).getD (i + 1) default).logicalStart =
        ((calculateChunks (fun _ => none) 100 1 10 5).getD i default).logicalEnd) ∧
    (∀ i, i < (calculateChunks (fun _ => none) 100 1 10 5).length →
      0 ≤ ((calculateChunks (fun _ => none) 100 1 10 5).getD i default).start ∧
      ((calculateChunks (fun _ => none) 100 1 10 5).getD i default).start ≤
        ((calculateChunks (fun _ => none) 100 1 10 5).getD i default).logicalStart ∧
      ((calculateChunks (fun _ => none) 100 1 10 5).getD i default).logicalEnd ≤
        ((calculateChunks (fun _ => none) 100 1 10 5).getD i default).stop ∧
      ((calculateChunks (fun _ => none) 100 1 10 5).getD i default).stop ≤ 100) :=
  claim1_planner_invariants (fun _ => none) 100 1 10 5 (by norm_num) (by norm_num)
    (by norm_num) (fun t c h => by simp at h) _ rfl

/-- C8 counterexample: with duration 20 s, chunk length 0.1 min (6 s)
and overlap 10 s (a valid config: positive chunk length, nonnegative
overlap) and no silences found, the second chunk has logicalStart 6 and
actualStart clamped to 0, yet its recorded leading overlap is the full
10 s, so leading_overlap differs from logicalStart minus actualStart. -/
theorem claim8_counterexample :
    ((calculateChunks (fun _ => none) 20 (1/10) 10 10).getD 1 default).overlap.leading = 10 ∧
    ((calculateChunks (fun _ => none) 20 (1/10) 10 10).getD 1 default).logicalStart = 6 ∧
    ((calculateChunks (fun _ => none) 20 (1/10) 10 10).getD 1 default).start = 0 ∧
    ((calculateChunks (fun _ => none) 20 (1/10) 10 10).getD 1 default).overlap.leading ≠
      ((calculateChunks (fun _ => none) 20 (1/10) 10 10).getD 1 default).logicalStart -
        ((calculateChunks (fun _ => none) 20 (1/10) 10 10).getD 1 default).start := by
  norm_num [calculateChunks, calcCutPoints, findCutPointsLoop, buildChunks, mkChunk,
    min_def, max_def, List.getD]

/-- C8 (amended): the recorded overlaps are always nonnegative; the
recorded leading overlap equals logicalStart minus actualStart whenever
the leading extension is not clamped at the start of the file (that is,
whenever overlapDurationSec ≤ logicalStart for a non-first chunk, and
always for the first chunk), and the recorded trailing overlap equals
actualEnd minus logicalEnd whenever the trailing extension is not
clamped at the end of the file (whenever logicalEnd + overlapDurationSec
≤ duration for a non-last chunk, and always for the last chunk). When a
clamp occurs the code records the full configured overlap instead. -/
theorem claim8_overlap_metadata (oracle : ℚ → Option ℚ)
    (duration chunkLengthMinutes overlapDurationSec : ℚ) (fuel : ℕ)
    (hov : 0 ≤ overlapDurationSec) :
    ∀ cs, cs = calculateChunks oracle duration chunkLengthMinutes overlapDurationSec fuel →
      ∀ i, i < cs.length →
        0 ≤ (cs.getD i default).overlap.leading ∧
        0 ≤ (cs.getD i default).overlap.trailing ∧
        ((0 < i → overlapDurationSec ≤ (cs.getD i default).logicalStart) →
          (cs.getD i default).overlap.leading =
            (cs.getD i default).logicalStart - (cs.getD i default).start) ∧
        ((i < cs.length - 1 →
            (cs.getD i default).logicalEnd + overlapDurationSec ≤ duration) →
          (cs.getD i default).overlap.trailing =
            (cs.getD i default).stop - (cs.getD i default).logicalEnd) := by
  intro cs hcs i hi
  set cp := calcCutPoints oracle duration (chunkLengthMinutes * 60) fuel with hcp
  have hcpl : cp.length = (findCutPointsLoop oracle duration (chunkLengthMinutes * 60) fuel 0).length + 2 :=
    calcCutPoints_length _ _ _ _
  have hlength : cs.length = cp.length - 1 := by
    rw [hcs]; exact calculateChunks_length _ _ _ _ _
  have hget : cs.getD i default = mkChunk cp duration overlapDurationSec i := by
    rw [hcs]
    exact calculateChunks_getD oracle duration chunkLengthMinutes overlapDurationSec fuel i
      (by rw [← hcs]; exact hi)
  rw [hget]
  simp only [mkChunk]
  refine ⟨?_, ?_, ?_, ?_⟩
  · split <;> simp [hov]
  · split <;> simp [hov]
  · intro hcl
    by_cases h0 : i = 0
    · simp [h0]
    · have hls : overlapDurationSec ≤ cp.getD i 0 := hcl (by omega)
      have hmax : max 0 (cp.getD i 0 - overlapDurationSec) = cp.getD i 0 - overlapDurationSec :=
        max_eq_right (by linarith)
      simp only [if_neg h0, hmax]
      have hil : (0 < i ∧ 0 < overlapDurationSec) ∨ ¬ (0 < i ∧ 0 < overlapDurationSec) :=
        em _
      rcases hil with hil | hil
      · rw [if_pos hil]; ring
      · rw [if_neg hil]
        have : overlapDurationSec = 0 := by
          rcases (not_and_or.mp hil) with h | h
          · omega
          · linarith [hov, not_lt.mp h]
        rw [this]; ring
  · intro hcl
    by_cases hlast : i = cp.length - 2
    · have : ¬ i < cp.length - 2 := by omega
      simp [hlast, this]
    · have hle : cp.getD (i + 1) 0 + overlapDurationSec ≤ duration := hcl (by omega)
      have hmin : min duration (cp.getD (i + 1) 0 + overlapDurationSec) =
          cp.getD (i + 1) 0 + overlapDurationSec := min_eq_right hle
      simp only [if_neg hlast, hmin]
      have hil : (i < cp.length - 2 ∧ 0 < overlapDurationSec) ∨
          ¬ (i < cp.length - 2 ∧ 0 < overlapDurationSec) := em _
      rcases hil with hil | hil
      · rw [if_pos hil]; ring
      · rw [if_neg hil]
        have : overlapDurationSec = 0 := by
          rcases (not_and_or.mp hil) with h | h
          · omega
          · linarith [hov, not_lt.mp h]
        rw [this]; ring

/-- Witness for the amended C8 at the concrete counterexample input:
the clamp conditions fail for chunk 1, but, for instance, chunk 0 of the
default-configuration plan satisfies both equations. -/
theorem claim8_overlap_metadata_witness :
    0 ≤ ((calculateChunks (fun _ => none) 1800 10 10 20).getD 1 default).overlap.leading ∧
    0 ≤ ((calculateChunks (fun _ => none) 1800 10 10 20).getD 1 default).overlap.trailing ∧
    ((0 < 1 → (10:ℚ) ≤ ((calculateChunks (fun _ => none) 1800 10 10 20).getD 1 default).logicalStart) →
      ((calculateChunks (fun _ => none) 1800 10 10 20).getD 1 default).overlap.leading =
        ((calculateChunks (fun _ => none) 1800 10 10 20).getD 1 default).logicalStart -
          ((calculateChunks (fun _ => none) 1800 10 10 20).getD 1 default).start) ∧
    ((1 < (calculateChunks (fun _ => none) 1800 10 10 20).length - 1 →
        ((calculateChunks (fun _ => none) 1800 10 10 20).getD 1 default).logicalEnd + 10 ≤ 1800) →
      ((calculateChunks (fun _ => none) 1800 10 10 20).getD 1 default).overlap.trailing =
        ((calculateChunks (fun _ => none) 1800 10 10 20).getD 1 default).stop -
          ((calculateChunks (fun _ => none) 1800 10 10 20).getD 1 default).logicalEnd) :=
  claim8_overlap_metadata (fun _ => none) 1800 10 10 20 (by norm_num) _ rfl 1
    (by norm_num [calculateChunks, calcCutPoints, findCutPointsLoop, buildChunks, min_def])

/-- C9 counterexample: with the default config (30-minute file,
10-minute chunks) and the probe reporting no silences at any window,
the plan has three chunks, and the interior fallback cut recorded on
chunk 0 has cut kind silence, not exact as the claim requires. -/
theorem claim9_counterexample :
    (calculateChunks (fun _ => none) 1800 10 10 20).length = 3 ∧
    ((calculateChunks (fun _ => none) 1800 10 10 20).getD 0 default).cutInfo.type =
      CutType.silence ∧
    ((calculateChunks (fun _ => none) 1800 10 10 20).getD 0 default).cutInfo.type ≠
      CutType.exact := by
  norm_num [calculateChunks, calcCutPoints, findCutPointsLoop, buildChunks, mkChunk,
    min_def, List.getD]
  decide

/-- C9 (amended): the recorded cut kind is end for the last chunk and
silence for every other chunk, regardless of whether the cut was derived
from a detected silence or is an exact fallback cut; the value exact is
never produced. -/
theorem claim9_cut_kind (oracle : ℚ → Option ℚ)
    (duration chunkLengthMinutes overlapDurationSec : ℚ) (fuel : ℕ) :
    ∀ cs, cs = calculateChunks oracle duration chunkLengthMinutes overlapDurationSec fuel →
      ∀ i, i < cs.length →
        (cs.getD i default).cutInfo.type =
          if i = cs.length - 1 then CutType.endCut else CutType.silence := by
  intro cs hcs i hi
  set cp := calcCutPoints oracle duration (chunkLengthMinutes * 60) fuel with hcp
  have hcpl : cp.length = (findCutPointsLoop oracle duration (chunkLengthMinutes * 60) fuel 0).length + 2 :=
    calcCutPoints_length _ _ _ _
  have hlength : cs.length = cp.length - 1 := by
    rw [hcs]; exact calculateChunks_length _ _ _ _ _
  have hget : cs.getD i default = mkChunk cp duration overlapDurationSec i := by
    rw [hcs]
    exact calculateChunks_getD oracle duration chunkLengthMinutes overlapDurationSec fuel i
      (by rw [← hcs]; exact hi)
  rw [hget]
  simp only [mkChunk]
  by_cases hlast : i = cp.length - 2
  · rw [if_pos hlast, if_pos (by omega)]
  · rw [if_neg hlast, if_neg (by omega)]

/-- Witness for the amended C9 at a concrete input: chunk 0 of the
three-chunk default plan carries the silence cut kind. -/
theorem claim9_cut_kind_witness :
    ((calculateChunks (fun _ => none) 1800 10 10 20).getD 0 default).cutInfo.type =
      if 0 = (calculateChunks (fun _ => none) 1800 10 10 20).length - 1 then
        CutType.endCut else CutType.silence :=
  claim9_cut_kind (fun _ => none) 1800 10 10 20 _ rfl 0
    (by norm_num [calculateChunks, calcCutPoints, findCutPointsLoop, buildChunks, min_def])

/-- C7: the backoff delay after attempt k equals
min(initial_delay_ms × multiplier^k, max_delay_ms); for a policy with
multiplier ≥ 1 (and the nonnegative initial delay every real policy
has) the delays are nondecreasing in k, and every delay is bounded by
max_delay_ms. -/
theorem claim7_backoff_delay (config : RetryConfig) (k : ℕ)
    (hmul : 1 ≤ config.backoffMultiplier) (hinit : 0 ≤ config.initialDelayMs) :
    calculateBackoffDelay k config =
      min (config.initialDelayMs * config.backoffMultiplier ^ k) config.maxDelayMs ∧
    calculateBackoffDelay k config ≤ calculateBackoffDelay (k + 1) config ∧
    calculateBackoffDelay k config ≤ config.maxDelayMs := by
  refine ⟨rfl, ?_, min_le_right _ _⟩
  apply min_le_min _ (le_refl _)
  apply mul_le_mul_of_nonneg_left _ hinit
  exact pow_le_pow_right₀ hmul (Nat.le_succ k)

/-- Witness for C7 at the default policy and attempt 3. -/
theorem claim7_backoff_delay_witness :
    (1 ≤ defaultRetryConfig.backoffMultiplier ∧ 0 ≤ defaultRetryConfig.initialDelayMs) ∧
    (calculateBackoffDelay 3 defaultRetryConfig =
      min (defaultRetryConfig.initialDelayMs * defaultRetryConfig.backoffMultiplier ^ 3)
        defaultRetryConfig.maxDelayMs ∧
    calculateBackoffDelay 3 defaultRetryConfig ≤ calculateBackoffDelay 4 defaultRetryConfig ∧
    calculateBackoffDelay 3 defaultRetryConfig ≤ defaultRetryConfig.maxDelayMs) :=
  ⟨⟨by norm_num [defaultRetryConfig], by norm_num [defaultRetryConfig]⟩,
    claim7_backoff_delay defaultRetryConfig 3 (by norm_num [defaultRetryConfig])
      (by norm_num [defaultRetryConfig])⟩

/-- C3: classifyError realizes the specification's classification table
for every input, with the table's rows applied in order: for every error
and optional status code, the produced type and retryable flag coincide
with the table's kind and its retryable column. Like the code, the table
treats a JavaScript-falsy status of 0 as unclassified (Unknown, not
retryable). -/
theorem claim3_classify_error (e : JsError) (statusCode : Option ℕ) :
    (classifyError e statusCode).type = specKindToErrorType (specClassifyKind e statusCode) ∧
    (classifyError e statusCode).retryable = specRetryable (specClassifyKind e statusCode) := by
  unfold classifyError specClassifyKind
  rcases statusCode with _ | code
  · split_ifs <;>
      simp_all [specTimeout, specConnectionFailure, specKindToErrorType, specRetryable] <;>
      split_ifs <;> simp_all
  · by_cases h1 : specTimeout e
    · simp [h1, specKindToErrorType, specRetryable]
    · by_cases h2 : specConnectionFailure e
      · unfold specConnectionFailure at h2
        rcases h2 with h2 | h2 | h2 <;>
          simp [h1, h2, specKindToErrorType, specRetryable, specConnectionFailure] <;>
          split_ifs <;> simp_all [specKindToErrorType, specRetryable]
      · have h2a : ¬ (e.name = "TypeError" ∧ (strContains e.message "fetch" : Prop)) := by
          intro hx; exact h2 (Or.inl hx)
        have h2b : ¬ (strContains e.message "NetworkError" : Prop) := by
          intro hx; exact h2 (Or.inr (Or.inl hx))
        have h2c : ¬ (strContains e.message "Failed to fetch" : Prop) := by
          intro hx; exact h2 (Or.inr (Or.inr hx))
        simp only [if_neg h1, if_neg h2a,
          if_neg (show ¬ ((strContains e.message "NetworkError" : Prop) ∨
            (strContains e.message "Failed to fetch" : Prop)) by tauto),
          if_neg h2]
        by_cases hc0 : code = 0
        · simp [hc0, specKindToErrorType, specRetryable]
        · by_cases hc429 : code = 429
          · simp [hc0, hc429, specKindToErrorType, specRetryable]
          · by_cases hcauth : code = 401 ∨ code = 403
            · have hns : ¬ (code = 500 ∨ code = 502 ∨ code = 503 ∨ code = 504) := by omega
              simp [hc0, hc429, hcauth, hns, specKindToErrorType, specRetryable]
            · by_cases hc400 : code = 400
              · have hns : ¬ (code = 500 ∨ code = 502 ∨ code = 503 ∨ code = 504) := by omega
                by_cases hma : specMentionsAudio e
                · unfold specMentionsAudio at hma
                  simp only [if_neg hc0, if_neg hc429, if_neg hcauth, if_pos hc400,
                    if_neg hns, if_pos (show code = 400 ∧ specMentionsAudio e from ⟨hc400, hma⟩)]
                  rcases hma with hma | hma | hma <;>
                    simp [hma, specKindToErrorType, specRetryable]
                · unfold specMentionsAudio at hma
                  have hmaa : ¬ ((strContains e.message "audio" : Prop) ∨
                      (strContains e.message "format" : Prop) ∨
                      (strContains e.message "file" : Prop)) := by tauto
                  simp only [if_neg hc0, if_neg hc429, if_neg hcauth, if_pos hc400,
                    if_neg hmaa, if_neg hns,
                    if_neg (show ¬ (code = 400 ∧ specMentionsAudio e) by tauto)]
                  simp [specKindToErrorType, specRetryable]
              · by_cases hcs : code = 500 ∨ code = 502 ∨ code = 503 ∨ code = 504
                · simp [hc0, hc429, hcauth, hc400, hcs, specKindToErrorType, specRetryable]
                · simp [hc0, hc429, hcauth, hc400, hcs, specKindToErrorType, specRetryable,
                    show ¬ (code = 400 ∧ specMentionsAudio e) by tauto]

theorem transcribeChunksLoop_nil (outcome : ℕ → ChunkOutcome) (b : ℕ) :
    transcribeChunksLoop outcome [] b = ([], []) := rfl

theorem transcribeChunksLoop_cons_ok (outcome : ℕ → ChunkOutcome)
    (c : Chunk) (rest : List Chunk) (b : ℕ) (text : String) (words : List TWord)
    (hout : outcome b = ChunkOutcome.ok text words) :
    transcribeChunksLoop outcome (c :: rest) b =
      ({ chunk := c, success := true, text := text, words := words,
          error := "", errorType := none } ::
            (transcribeChunksLoop outcome rest (b + 1)).1,
        b :: (transcribeChunksLoop outcome rest (b + 1)).2) := by
  rw [transcribeChunksLoop, hout]

theorem transcribeChunksLoop_cons_err_auth (outcome : ℕ → ChunkOutcome)
    (c : Chunk) (rest : List Chunk) (b : ℕ) (e : JsError) (sc : Option ℕ)
    (hout : outcome b = ChunkOutcome.err e sc)
    (hcl : (classifyError e (enhanceStatusCode e sc)).type = ErrorType.auth) :
    transcribeChunksLoop outcome (c :: rest) b =
      ([{ chunk := c, success := false, text := "", words := [], error := e.message,
          errorType := some (classifyError e (enhanceStatusCode e sc)).type }], [b]) := by
  rw [transcribeChunksLoop, hout]
  simp only [if_pos hcl]

theorem transcribeChunksLoop_cons_err_nonauth (outcome : ℕ → ChunkOutcome)
    (c : Chunk) (rest : List Chunk) (b : ℕ) (e : JsError) (sc : Option ℕ)
    (hout : outcome b = ChunkOutcome.err e sc)
    (hcl : ¬ (classifyError e (enhanceStatusCode e sc)).type = ErrorType.auth) :
    transcribeChunksLoop outcome (c :: rest) b =
      ({ chunk := c, success := false, text := "", words := [], error := e.message,
          errorType := some (classifyError e (enhanceStatusCode e sc)).type } ::
            (transcribeChunksLoop outcome rest (b + 1)).1,
        b :: (transcribeChunksLoop outcome rest (b + 1)).2) := by
  rw [transcribeChunksLoop, hout]
  simp only [if_neg hcl]

theorem transcribeChunksLoop_auth_stop (outcome : ℕ → ChunkOutcome) :
    ∀ (cs : List Chunk) (b i : ℕ), i < cs.length →
      (∀ j, j < i → ¬ authFailureAt outcome (b + j)) →
      authFailureAt outcome (b + i) →
      (transcribeChunksLoop outcome cs b).2 = List.range' b (i + 1) ∧
      (transcribeChunksLoop outcome cs b).1.length = i + 1 ∧
      ((transcribeChunksLoop outcome cs b).1.getD i default).success = false := by
  intro cs
  induction cs with
  | nil => intro b i hi; simp at hi
  | cons c rest ih =>
    intro b i hi hprev hauth
    rcases Nat.eq_zero_or_pos i with rfl | hpos
    · obtain ⟨e, sc, hout, hcl⟩ := hauth
      rw [transcribeChunksLoop_cons_err_auth outcome c rest b e sc hout hcl]
      refine ⟨?_, rfl, rfl⟩
      simp [List.range'_succ]
    · obtain ⟨k, rfl⟩ : ∃ k, i = k + 1 := ⟨i - 1, by omega⟩
      have hb : ¬ authFailureAt outcome b := by
        have := hprev 0 (by omega)
        simpa using this
      have hih := ih (b + 1) k (by simpa using hi)
        (fun j hj => by
          have := hprev (j + 1) (by omega)
          rwa [show b + (j + 1) = b + 1 + j by omega] at this)
        (by rwa [show b + (k + 1) = b + 1 + k by omega] at hauth)
      cases hout : outcome b with
      | ok text words =>
        rw [transcribeChunksLoop_cons_ok outcome c rest b text words hout]
        refine ⟨?_, ?_, ?_⟩
        · rw [List.range'_succ, hih.1]
        · simp [hih.2.1]
        · simpa using hih.2.2
      | err e sc =>
        have hnotauth : ¬ (classifyError e (enhanceStatusCode e sc)).type = ErrorType.auth := by
          intro hc
          exact hb ⟨e, sc, hout, hc⟩
        rw [transcribeChunksLoop_cons_err_nonauth outcome c rest b e sc hout hnotauth]
        refine ⟨?_, ?_, ?_⟩
        · rw [List.range'_succ, hih.1]
        · simp [hih.2.1]
        · simpa using hih.2.2

theorem transcribeChunksLoop_starts_head (outcome : ℕ → ChunkOutcome)
    (c : Chunk) (rest : List Chunk) (b : ℕ) :
    b ∈ (transcribeChunksLoop outcome (c :: rest) b).2 := by
  cases hout : outcome b with
  | ok text words =>
    rw [transcribeChunksLoop_cons_ok outcome c rest b text words hout]
    simp
  | err e sc =>
    by_cases hcl : (classifyError e (enhanceStatusCode e sc)).type = ErrorType.auth
    · rw [transcribeChunksLoop_cons_err_auth outcome c rest b e sc hout hcl]
      simp
    · rw [transcribeChunksLoop_cons_err_nonauth outcome c rest b e sc hout hcl]
      simp

theorem transcribeChunksLoop_nonauth_continue (outcome : ℕ → ChunkOutcome) :
    ∀ (cs : List Chunk) (b i : ℕ), i < cs.length →
      (∀ j, j ≤ i → ¬ authFailureAt outcome (b + j)) →
      (∀ e sc, outcome (b + i) = ChunkOutcome.err e sc →
        ((transcribeChunksLoop outcome cs b).1.getD i default).success = false ∧
        ((transcribeChunksLoop outcome cs b).1.getD i default).error = e.message) ∧
      (i + 1 < cs.length → (b + (i + 1)) ∈ (transcribeChunksLoop outcome cs b).2) := by
  intro cs
  induction cs with
  | nil => intro b i hi; simp at hi
  | cons c rest ih =>
    intro b i hi hprev
    rcases Nat.eq_zero_or_pos i with rfl | hpos
    · constructor
      · intro e sc hout
        have hout' : outcome b = ChunkOutcome.err e sc := by simpa using hout
        have hnotauth : ¬ (classifyError e (enhanceStatusCode e sc)).type = ErrorType.auth := by
          intro hc
          exact hprev 0 (le_refl 0) ⟨e, sc, by simpa using hout', hc⟩
        rw [transcribeChunksLoop_cons_err_nonauth outcome c rest b e sc hout' hnotauth]
        exact ⟨rfl, rfl⟩
      · intro hlen
        have hrest : rest ≠ [] := by
          intro hr; rw [hr] at hlen; simp at hlen
        obtain ⟨c', rest', rfl⟩ := List.exists_cons_of_ne_nil hrest
        have hmem := transcribeChunksLoop_starts_head outcome c' rest' (b + 1)
        cases hout : outcome b with
        | ok text words =>
          rw [transcribeChunksLoop_cons_ok outcome c _ b text words hout]
          simpa using hmem
        | err e sc =>
          have hnotauth : ¬ (classifyError e (enhanceStatusCode e sc)).type = ErrorType.auth := by
            intro hc
            exact hprev 0 (le_refl 0) ⟨e, sc, by simpa using hout, hc⟩
          rw [transcribeChunksLoop_cons_err_nonauth outcome c _ b e sc hout hnotauth]
          simpa using hmem
    · obtain ⟨k, rfl⟩ : ∃ k, i = k + 1 := ⟨i - 1, by omega⟩
      have hb : ¬ authFailureAt outcome b := by
        have := hprev 0 (by omega)
        simpa using this
      have hih := ih (b + 1) k (by simpa using hi)
        (fun j hj => by
          have := hprev (j + 1) (by omega)
          rwa [show b + (j + 1) = b + 1 + j by omega] at this)
      cases hout : outcome b with
      | ok text words =>
        constructor
        · intro e sc hout'
          rw [show b + (k + 1) = b + 1 + k by omega] at hout'
          have := hih.1 e sc hout'
          rw [transcribeChunksLoop_cons_ok outcome c rest b text words hout]
          simpa using this
        · intro hlen
          have := hih.2 (by simpa using hlen)
          rw [show b + (k + 1 + 1) = b + 1 + (k + 1) by omega]
          rw [transcribeChunksLoop_cons_ok outcome c rest b text words hout]
          simpa using Or.inr this
      | err e sc =>
        have hnotauth : ¬ (classifyError e (enhanceStatusCode e sc)).type = ErrorType.auth := by
          intro hc
          exact hb ⟨e, sc, hout, hc⟩
        constructor
        · intro e' sc' hout'
          rw [show b + (k + 1) = b + 1 + k by omega] at hout'
          have := hih.1 e' sc' hout'
          rw [transcribeChunksLoop_cons_err_nonauth outcome c rest b e sc hout hnotauth]
          simpa using this
        · intro hlen
          have := hih.2 (by simpa using hlen)
          rw [show b + (k + 1 + 1) = b + 1 + (k + 1) by omega]
          rw [transcribeChunksLoop_cons_err_nonauth outcome c rest b e sc hout hnotauth]
          simpa using Or.inr this

/-- C4: in the dispatcher loop transcribeChunks, if chunk i is the first
chunk to fail with an error classified as Auth, then the results array
stops at chunk i (recorded as a failed result) and no later chunk is
ever started: the exact set of indices receiving onChunkStart is
0 .. i. If instead chunk i fails with an error not classified as Auth
(given no earlier Auth failure), chunk i is recorded as a failed result
carrying the error message and, when a chunk i+1 exists, it is started. -/
theorem claim4_dispatcher_auth_abort (chunks : List Chunk)
    (outcome : ℕ → ChunkOutcome) (i : ℕ) (hi : i < chunks.length)
    (e : JsError) (sc : Option ℕ) (herr : outcome i = ChunkOutcome.err e sc)
    (hprev : ∀ j, j < i → ¬ authFailureAt outcome j) :
    ((classifyError e (enhanceStatusCode e sc)).type = ErrorType.auth →
      (transcribeChunks chunks outcome).2 = List.range (i + 1) ∧
      (transcribeChunks chunks outcome).1.length = i + 1 ∧
      ((transcribeChunks chunks outcome).1.getD i default).success = false) ∧
    ((classifyError e (enhanceStatusCode e sc)).type ≠ ErrorType.auth →
      ((transcribeChunks chunks outcome).1.getD i default).success = false ∧
      ((transcribeChunks chunks outcome).1.getD i default).error = e.message ∧
      (i + 1 < chunks.length → (i + 1) ∈ (transcribeChunks chunks outcome).2)) := by
  constructor
  · intro hauth
    have := transcribeChunksLoop_auth_stop outcome chunks 0 i hi
      (fun j hj => by simpa using hprev j hj)
      (by simpa using ⟨e, sc, herr, hauth⟩)
    rw [List.range_eq_range']
    simpa [transcribeChunks] using this
  · intro hnotauth
    have hno : ∀ j, j ≤ i → ¬ authFailureAt outcome (0 + j) := by
      intro j hj
      rcases Nat.lt_or_ge j i with hlt | hge
      · simpa using hprev j hlt
      · have hji : j = i := by omega
        subst hji
        simp only [Nat.zero_add]
        rintro ⟨e', sc', hout', hcl'⟩
        rw [herr] at hout'
        cases hout'
        exact hnotauth hcl'
    have := transcribeChunksLoop_nonauth_continue outcome chunks 0 i hi hno
    refine ⟨?_, ?_, ?_⟩
    · exact ((this.1 e sc (by simpa using herr)).1)
    · exact ((this.1 e sc (by simpa using herr)).2)
    · intro hlen
      have := this.2 hlen
      simpa [transcribeChunks] using this

/-- Witness for C4: a three-chunk plan where chunk 1 fails with HTTP
401; chunk 2 is never started and the start list is exactly [0, 1]. -/
theorem claim4_dispatcher_auth_abort_witness :
    ((classifyError ⟨"Error", "Groq API error: 401 Unauthorized"⟩
        (enhanceStatusCode ⟨"Error", "Groq API error: 401 Unauthorized"⟩ (some 401))).type =
          ErrorType.auth →
      (transcribeChunks [default, default, default]
        (fun n => if n = 1 then
          ChunkOutcome.err ⟨"Error", "Groq API error: 401 Unauthorized"⟩ (some 401)
          else ChunkOutcome.ok "hello" [])).2 = List.range 2 ∧
      (transcribeChunks [default, default, default]
        (fun n => if n = 1 then
          ChunkOutcome.err ⟨"Error", "Groq API error: 401 Unauthorized"⟩ (some 401)
          else ChunkOutcome.ok "hello" [])).1.length = 2 ∧
      ((transcribeChunks [default, default, default]
        (fun n => if n = 1 then
          ChunkOutcome.err ⟨"Error", "Groq API error: 401 Unauthorized"⟩ (some 401)
          else ChunkOutcome.ok "hello" [])).1.getD 1 default).success = false) ∧
    ((classifyError ⟨"Error", "Groq API error: 401 Unauthorized"⟩
        (enhanceStatusCode ⟨"Error", "Groq API error: 401 Unauthorized"⟩ (some 401))).type ≠
          ErrorType.auth →
      ((transcribeChunks [default, default, default]
        (fun n => if n = 1 then
          ChunkOutcome.err ⟨"Error", "Groq API error: 401 Unauthorized"⟩ (some 401)
          else ChunkOutcome.ok "hello" [])).1.getD 1 default).success = false ∧
      ((transcribeChunks [default, default, default]
        (fun n => if n = 1 then
          ChunkOutcome.err ⟨"Error", "Groq API error: 401 Unauthorized"⟩ (some 401)
          else ChunkOutcome.ok "hello" [])).1.getD 1 default).error =
            "Groq API error: 401 Unauthorized" ∧
      (1 + 1 < ([default, default, default] : List Chunk).length →
        (1 + 1) ∈ (transcribeChunks [default, default, default]
          (fun n => if n = 1 then
            ChunkOutcome.err ⟨"Error", "Groq API error: 401 Unauthorized"⟩ (some 401)
            else ChunkOutcome.ok "hello" [])).2)) :=
  claim4_dispatcher_auth_abort [default, default, default]
    (fun n => if n = 1 then
      ChunkOutcome.err ⟨"Error", "Groq API error: 401 Unauthorized"⟩ (some 401)
      else ChunkOutcome.ok "hello" []) 1 (by norm_num)
    ⟨"Error", "Groq API error: 401 Unauthorized"⟩ (some 401) (by norm_num)
    (by
      intro j hj
      interval_cases j
      rintro ⟨e', sc', hout', hcl'⟩
      simp at hout')

/-! ### Merger lemmas -/

theorem emitWords_take (ws : List DWord) :
    ∀ j e, emitWords ws j 0 e = ws.take (e - j) := by
  induction ws with
  | nil => intro j e; simp [emitWords]
  | cons w ws ih =>
    intro j e
    rw [emitWords]
    by_cases h : j < e
    · have : 0 ≤ j ∧ j < e := ⟨Nat.zero_le j, h⟩
      rw [if_pos this, ih (j + 1) e]
      have he : e - j = (e - (j + 1)) + 1 := by omega
      rw [he]
      simp
    · have : ¬ (0 ≤ j ∧ j < e) := by omega
      rw [if_neg this, ih (j + 1) e]
      have h1 : e - j = 0 := by omega
      have h2 : e - (j + 1) = 0 := by omega
      simp [h1, h2]

theorem emitWords_drop (ws : List DWord) :
    ∀ j s e, j + ws.length ≤ e → emitWords ws j s e = ws.drop (s - j) := by
  induction ws with
  | nil => intro j s e _; simp [emitWords]
  | cons w ws ih =>
    intro j s e hle
    rw [emitWords]
    simp only [List.length_cons] at hle
    by_cases h : s ≤ j
    · have hc : s ≤ j ∧ j < e := ⟨h, by omega⟩
      rw [if_pos hc, ih (j + 1) s e (by omega)]
      have h1 : s - j = 0 := by omega
      have h2 : s - (j + 1) = 0 := by omega
      simp [h1, h2]
    · have hc : ¬ (s ≤ j ∧ j < e) := by omega
      rw [if_neg hc, ih (j + 1) s e (by omega)]
      have h1 : s - j = (s - (j + 1)) + 1 := by omega
      rw [h1]
      simp

theorem overlapStartIdx_le (t : ℚ) (ws : List DWord) :
    overlapStartIdx t ws ≤ ws.length := by
  induction ws with
  | nil => simp [overlapStartIdx]
  | cons w ws ih =>
    rw [overlapStartIdx]
    split
    · simpa using ih
    · simp

theorem overlapEndIdx_le (t : ℚ) (ws : List DWord) :
    overlapEndIdx t ws ≤ ws.length := by
  induction ws with
  | nil => simp [overlapEndIdx]
  | cons w ws ih =>
    rw [overlapEndIdx]
    split
    · simp
    · simpa using ih

theorem dedup_const (b : ℕ) (l : List ℕ) (hall : ∀ x ∈ l, x = b) (hne : l ≠ []) :
    l.dedup = [b] := by
  induction l with
  | nil => exact absurd rfl hne
  | cons x l ih =>
    have hx : x = b := hall x (List.mem_cons_self x l)
    subst hx
    rcases List.eq_nil_or_concat l with rfl | _
    · simp
    · have hl : l ≠ [] := by
        rintro rfl
        simp_all
      rw [List.dedup_cons_of_mem]
      · exact ih (fun y hy => hall y (List.mem_cons_of_mem _ hy)) hl
      · rcases List.exists_mem_of_ne_nil l hl with ⟨y, hy⟩
        have hyx : y = x := hall y (List.mem_cons_of_mem _ hy)
        exact hyx ▸ hy

theorem dedup_two_const (a b : ℕ) (hab : a ≠ b) (l1 l2 : List ℕ)
    (h1 : ∀ x ∈ l1, x = a) (h2 : ∀ x ∈ l2, x = b)
    (hne1 : l1 ≠ []) (hne2 : l2 ≠ []) :
    (l1 ++ l2).dedup = [a, b] := by
  induction l1 with
  | nil => exact absurd rfl hne1
  | cons x l1 ih =>
    have hx : x = a := h1 x (List.mem_cons_self x l1)
    subst hx
    rcases List.eq_nil_or_concat l1 with rfl | _
    · simp only [List.nil_append, List.singleton_append]
      rw [List.dedup_cons_of_not_mem]
      · rw [dedup_const b l2 h2 hne2]
      · intro hmem
        exact hab (h2 _ hmem)
    · have hl : l1 ≠ [] := by
        rintro rfl
        simp_all
      have hihs := ih (fun y hy => h1 y (List.mem_cons_of_mem _ hy)) hl
      rw [List.cons_append, List.dedup_cons_of_mem]
      · exact hihs
      · rcases List.exists_mem_of_ne_nil l1 hl with ⟨y, hy⟩
        have hyx : y = x := h1 y (List.mem_cons_of_mem _ hy)
        exact List.mem_append_left _ (hyx ▸ hy)

theorem insertionSort_pair (a b : ℕ) (hab : a ≤ b) :
    ([a, b] : List ℕ).insertionSort (· ≤ ·) = [a, b] := by
  simp [List.insertionSort, List.orderedInsert, hab]

theorem filter_group_left (a b : ℕ) (hab : a ≠ b) (wsA wsB : List DWord)
    (hidxA : ∀ w ∈ wsA, w.chunkIndex = a) (hidxB : ∀ w ∈ wsB, w.chunkIndex = b) :
    (wsA ++ wsB).filter (fun w => w.chunkIndex == a) = wsA := by
  rw [List.filter_append]
  have h1 : wsA.filter (fun w => w.chunkIndex == a) = wsA := by
    rw [List.filter_eq_self]
    intro w hw
    simp [hidxA w hw]
  have h2 : wsB.filter (fun w => w.chunkIndex == a) = [] := by
    rw [List.filter_eq_nil_iff]
    intro w hw
    simp [hidxB w hw, Ne.symm hab]
  rw [h1, h2, List.append_nil]

theorem filter_group_right (a b : ℕ) (hab : a ≠ b) (wsA wsB : List DWord)
    (hidxA : ∀ w ∈ wsA, w.chunkIndex = a) (hidxB : ∀ w ∈ wsB, w.chunkIndex = b) :
    (wsA ++ wsB).filter (fun w => w.chunkIndex == b) = wsB := by
  rw [List.filter_append]
  have h1 : wsA.filter (fun w => w.chunkIndex == b) = [] := by
    rw [List.filter_eq_nil_iff]
    intro w hw
    simp [hidxA w hw, hab]
  have h2 : wsB.filter (fun w => w.chunkIndex == b) = wsB := by
    rw [List.filter_eq_self]
    intro w hw
    simp [hidxB w hw]
  rw [h1, h2, List.nil_append]

theorem scanPair_overlap (f : ℕ → List DWord) (st : OverlapScanState) (a b : ℕ)
    (hA : ¬ ((f a).length = 0 ∨ (f b).length = 0))
    (hov : ((f a).getLastD default).absoluteEnd > (f b).headI.absoluteStart) :
    scanPair f st (a, b) =
      { regions :=
          if meanCentrality (overlapSliceB (f a) (f b)) >
              meanCentrality (overlapSliceA (f a) (f b)) then
            mapSet (mapSet st.regions a
                (OverlapEntry.cutoff (overlapStartIdx (f b).headI.absoluteStart (f a))
                  (overlapSliceA (f a) (f b)).length))
              b (OverlapEntry.startFrom 0 0)
          else
            mapSet (mapSet st.regions a (OverlapEntry.cutoff (f a).length 0))
              b (OverlapEntry.startFrom
                  (overlapEndIdx ((f a).getLastD default).absoluteEnd (f b))
                  (overlapSliceB (f a) (f b)).length),
        processed := st.processed ++ [(a, b)] } := by
  simp only [scanPair]
  rw [if_neg hA, if_pos hov]
  simp only [meanCentrality, overlapSliceA, overlapSliceB]

theorem scanPair_no_overlap (f : ℕ → List DWord) (st : OverlapScanState) (a b : ℕ)
    (h : (f a).length = 0 ∨ (f b).length = 0 ∨
      ¬ ((f a).getLastD default).absoluteEnd > (f b).headI.absoluteStart) :
    scanPair f st (a, b) = st := by
  simp only [scanPair]
  by_cases h0 : (f a).length = 0 ∨ (f b).length = 0
  · rw [if_pos h0]
  · rw [if_neg h0]
    have hno : ¬ ((f a).getLastD default).absoluteEnd > (f b).headI.absoluteStart := by
      tauto
    rw [if_neg hno]

theorem deduplicateByTimestamp_two_chunks (a b : ℕ) (hab : a < b)
    (wsA wsB : List DWord) (hA : wsA ≠ []) (hB : wsB ≠ [])
    (hidxA : ∀ w ∈ wsA, w.chunkIndex = a) (hidxB : ∀ w ∈ wsB, w.chunkIndex = b)
    (ov : ℚ)
    (hov : (wsA.getLastD default).absoluteEnd > wsB.headI.absoluteStart) :
    (meanCentrality (overlapSliceB wsA wsB) > meanCentrality (overlapSliceA wsA wsB) →
      (deduplicateByTimestamp (wsA ++ wsB) ov).words =
        wsA.take (overlapStartIdx wsB.headI.absoluteStart wsA) ++ wsB ∧
      (deduplicateByTimestamp (wsA ++ wsB) ov).stats =
        ⟨1, (overlapSliceA wsA wsB).length⟩) ∧
    (¬ meanCentrality (overlapSliceB wsA wsB) > meanCentrality (overlapSliceA wsA wsB) →
      (deduplicateByTimestamp (wsA ++ wsB) ov).words =
        wsA ++ wsB.drop (overlapEndIdx (wsA.getLastD default).absoluteEnd wsB) ∧
      (deduplicateByTimestamp (wsA ++ wsB) ov).stats =
        ⟨1, (overlapSliceB wsA wsB).length⟩) := by
  have habne : a ≠ b := Nat.ne_of_lt hab
  have hmap : ((wsA ++ wsB).map (fun w => w.chunkIndex)).dedup = [a, b] := by
    rw [List.map_append]
    refine dedup_two_const a b habne _ _ ?_ ?_ ?_ ?_
    · intro x hx
      obtain ⟨w, hw, rfl⟩ := List.mem_map.mp hx
      exact hidxA w hw
    · intro x hx
      obtain ⟨w, hw, rfl⟩ := List.mem_map.mp hx
      exact hidxB w hw
    · simpa using hA
    · simpa using hB
  have hsort := insertionSort_pair a b (le_of_lt hab)
  have hfA := filter_group_left a b habne wsA wsB hidxA hidxB
  have hfB := filter_group_right a b habne wsA wsB hidxA hidxB
  have hA0 : ¬ (wsA.length = 0 ∨ wsB.length = 0) := by
    rw [List.length_eq_zero, List.length_eq_zero]
    tauto
  have hbne : b ≠ a := Ne.symm habne
  have hlen0 : ¬ (([a, b] : List ℕ).length = 0) := by simp
  have hfovA : ¬ ((((wsA ++ wsB).filter (fun w => w.chunkIndex == a)).length = 0) ∨
      (((wsA ++ wsB).filter (fun w => w.chunkIndex == b)).length = 0)) := by
    rw [hfA, hfB]; exact hA0
  have hfov : (((wsA ++ wsB).filter (fun w => w.chunkIndex == a)).getLastD default).absoluteEnd >
      ((wsA ++ wsB).filter (fun w => w.chunkIndex == b)).headI.absoluteStart := by
    rw [hfA, hfB]; exact hov
  by_cases hc : meanCentrality (overlapSliceB wsA wsB) > meanCentrality (overlapSliceA wsA wsB)
  · refine ⟨fun _ => ?_, fun hn => absurd hc hn⟩
    constructor <;>
      (simp only [deduplicateByTimestamp]
       rw [hmap, hsort, if_neg hlen0]
       simp only [List.tail_cons, List.zip_cons_cons, List.zip_nil_right,
         List.foldl_cons, List.foldl_nil]
       rw [scanPair_overlap (fun k => (wsA ++ wsB).filter (fun w => w.chunkIndex == k))
         ⟨fun _ => none, []⟩ a b hfovA hfov]
       simp only [hfA, hfB]
       rw [if_pos hc]
       simp only [List.flatMap_cons, List.flatMap_nil, chunkSliceBounds, chunkDropCount,
         mapSet, hfA, hfB, habne, hbne, ite_false, ite_true, eq_self_iff_true,
         List.append_nil, emitWords_take, Nat.sub_zero, List.take_length,
         List.map_cons, List.map_nil, List.sum_cons, List.sum_nil, Nat.add_zero,
         List.nil_append, List.length_cons, List.length_nil])
  · refine ⟨fun hcc => absurd hcc hc, fun _ => ?_⟩
    constructor <;>
      (simp only [deduplicateByTimestamp]
       rw [hmap, hsort, if_neg hlen0]
       simp only [List.tail_cons, List.zip_cons_cons, List.zip_nil_right,
         List.foldl_cons, List.foldl_nil]
       rw [scanPair_overlap (fun k => (wsA ++ wsB).filter (fun w => w.chunkIndex == k))
         ⟨fun _ => none, []⟩ a b hfovA hfov]
       simp only [hfA, hfB]
       rw [if_neg hc]
       simp only [List.flatMap_cons, List.flatMap_nil, chunkSliceBounds, chunkDropCount,
         mapSet, hfA, hfB, habne, hbne, ite_false, ite_true, eq_self_iff_true,
         List.append_nil, Nat.sub_zero, List.take_length,
         List.map_cons, List.map_nil, List.sum_cons, List.sum_nil, Nat.add_zero,
         List.nil_append, List.length_cons, List.length_nil]
       simp [emitWords_take, emitWords_drop, List.take_length])

theorem entryInvariantF_mapSet (f : ℕ → List DWord) (regions : ℕ → Option OverlapEntry)
    (k : ℕ) (v : OverlapEntry) (h : entryInvariantF f regions)
    (hv : match v with
      | OverlapEntry.cutoff c n => c ≤ (f k).length ∧ n = (f k).length - c
      | OverlapEntry.startFrom s n => s ≤ (f k).length ∧ n = s) :
    entryInvariantF f (mapSet regions k v) := by
  intro k'
  unfold mapSet
  by_cases hk : k' = k
  · subst hk
    rw [if_pos rfl]
    cases v with
    | cutoff c n => exact hv
    | startFrom s n => exact hv
  · simp only [if_neg hk]
    exact h k'

theorem scanPair_preserves_invariant (f : ℕ → List DWord) (st : OverlapScanState)
    (p : ℕ × ℕ) (h : entryInvariantF f st.regions) :
    entryInvariantF f (scanPair f st p).regions := by
  rw [scanPair]
  by_cases h0 : (f p.1).length = 0 ∨ (f p.2).length = 0
  · rw [if_pos h0]; exact h
  · rw [if_neg h0]
    by_cases hov : ((f p.1).getLastD default).absoluteEnd > (f p.2).headI.absoluteStart
    · rw [if_pos hov]
      by_cases hc : (if 0 < ((f p.2).take (overlapEndIdx ((f p.1).getLastD default).absoluteEnd (f p.2))).length then
            (((f p.2).take (overlapEndIdx ((f p.1).getLastD default).absoluteEnd (f p.2))).map
              (fun w => w.centrality)).sum /
              (((f p.2).take (overlapEndIdx ((f p.1).getLastD default).absoluteEnd (f p.2))).length : ℚ)
          else 0) >
          (if 0 < ((f p.1).drop (overlapStartIdx (f p.2).headI.absoluteStart (f p.1))).length then
            (((f p.1).drop (overlapStartIdx (f p.2).headI.absoluteStart (f p.1))).map
              (fun w => w.centrality)).sum /
              (((f p.1).drop (overlapStartIdx (f p.2).headI.absoluteStart (f p.1))).length : ℚ)
          else 0)
      · simp only [if_pos hc]
        refine entryInvariantF_mapSet _ _ _ _ ?_ ?_
        · refine entryInvariantF_mapSet _ _ _ _ h ?_
          refine ⟨overlapStartIdx_le _ _, ?_⟩
          simp [List.length_drop]
        · exact ⟨Nat.zero_le _, rfl⟩
      · simp only [if_neg hc]
        refine entryInvariantF_mapSet _ _ _ _ ?_ ?_
        · refine entryInvariantF_mapSet _ _ _ _ h ?_
          exact ⟨le_refl _, by simp⟩
        · refine ⟨overlapEndIdx_le _ _, ?_⟩
          simp [List.length_take, Nat.min_eq_left (overlapEndIdx_le _ _)]
    · rw [if_neg hov]; exact h

theorem foldl_scanPair_invariant (f : ℕ → List DWord) (pairs : List (ℕ × ℕ))
    (st : OverlapScanState) (h : entryInvariantF f st.regions) :
    entryInvariantF f ((pairs.foldl (scanPair f) st).regions) := by
  induction pairs generalizing st with
  | nil => simpa using h
  | cons p ps ih =>
    rw [List.foldl_cons]
    exact ih _ (scanPair_preserves_invariant f st p h)

theorem foldl_scanPair_no_overlap (f : ℕ → List DWord) (pairs : List (ℕ × ℕ))
    (st : OverlapScanState)
    (h : ∀ p ∈ pairs, ¬ ((f p.1).getLastD default).absoluteEnd > (f p.2).headI.absoluteStart) :
    pairs.foldl (scanPair f) st = st := by
  induction pairs generalizing st with
  | nil => rfl
  | cons p ps ih =>
    rw [List.foldl_cons, scanPair_no_overlap f st p.1 p.2]
    · exact ih st (fun q hq => h q (List.mem_cons_of_mem _ hq))
    · right; right
      simpa using h p (List.mem_cons_self _ _)

theorem chunk_emit_conservation (f : ℕ → List DWord) (regions : ℕ → Option OverlapEntry)
    (k : ℕ) (h : entryInvariantF f regions) :
    (emitWords (f k) 0 (chunkSliceBounds regions (f k).length k).1
        (chunkSliceBounds regions (f k).length k).2).length +
      chunkDropCount regions k = (f k).length := by
  have hk := h k
  unfold chunkSliceBounds chunkDropCount
  cases hreg : regions k with
  | none => simp [emitWords_take]
  | some entry =>
    rw [hreg] at hk
    cases entry with
    | cutoff c n =>
      simp only
      rw [emitWords_take]
      simp only [Nat.sub_zero, List.length_take]
      omega
    | startFrom s n =>
      simp only
      rw [emitWords_drop _ 0 s (f k).length (by omega)]
      simp only [Nat.sub_zero, List.length_drop]
      omega

theorem sum_map_add_nat (l : List ℕ) (g1 g2 : ℕ → ℕ) :
    (l.map (fun k => g1 k + g2 k)).sum = (l.map g1).sum + (l.map g2).sum := by
  induction l with
  | nil => simp
  | cons x l ih => simp [ih]; omega

theorem sum_group_lengths :
    ∀ (ks : List ℕ) (words : List DWord), ks.Nodup →
      (∀ w ∈ words, w.chunkIndex ∈ ks) →
      (ks.map (fun k => (words.filter (fun w => w.chunkIndex == k)).length)).sum =
        words.length := by
  intro ks
  induction ks with
  | nil =>
    intro words _ hcov
    have hw : words = [] := by
      cases words with
      | nil => rfl
      | cons w ws => exact absurd (hcov w (List.mem_cons_self _ _)) (List.not_mem_nil _)
    subst hw; simp
  | cons k ks ih =>
    intro words hnd hcov
    rw [List.map_cons, List.sum_cons]
    have hnotmem : k ∉ ks := (List.nodup_cons.mp hnd).1
    have hnd' : ks.Nodup := (List.nodup_cons.mp hnd).2
    have hcov' : ∀ w ∈ words.filter (fun w => ! (w.chunkIndex == k)), w.chunkIndex ∈ ks := by
      intro w hw
      have hmem := List.mem_of_mem_filter hw
      have hne : ¬ w.chunkIndex = k := by
        have := List.of_mem_filter hw
        simpa using this
      rcases List.mem_cons.mp (hcov w hmem) with h | h
      · exact absurd h hne
      · exact h
    have hmapeq : ks.map (fun j => (words.filter (fun w => w.chunkIndex == j)).length) =
        ks.map (fun j => ((words.filter (fun w => ! (w.chunkIndex == k))).filter
          (fun w => w.chunkIndex == j)).length) := by
      refine List.map_congr_left ?_
      intro j hj
      have hkne : j ≠ k := by rintro rfl; exact hnotmem hj
      rw [List.filter_filter]
      congr 1
      refine List.filter_congr ?_
      intro w _
      by_cases h : w.chunkIndex = j
      · simp [h, hkne]
      · simp [h]
    rw [hmapeq, ih _ hnd' hcov']
    exact (@List.length_eq_length_filter_add DWord words (fun w => w.chunkIndex == k)).symm

theorem deduplicateByTimestamp_empty (words : List DWord) (ov : ℚ)
    (h : (chunkIndicesOf words).length = 0) :
    deduplicateByTimestamp words ov =
      { text := "", words := [], allWords := [], stats := ⟨0, 0⟩ } := by
  simp only [chunkIndicesOf] at h
  simp only [deduplicateByTimestamp]
  rw [if_pos h]

theorem deduplicateByTimestamp_fields (words : List DWord) (ov : ℚ)
    (h : ¬ (chunkIndicesOf words).length = 0) :
    (deduplicateByTimestamp words ov).words =
      (chunkIndicesOf words).flatMap (fun k =>
        emitWords (wordsOfChunk words k) 0
          (chunkSliceBounds (dedupScan words).regions (wordsOfChunk words k).length k).1
          (chunkSliceBounds (dedupScan words).regions (wordsOfChunk words k).length k).2) ∧
    (deduplicateByTimestamp words ov).stats =
      ⟨(dedupScan words).processed.length,
        ((chunkIndicesOf words).map (fun k => chunkDropCount (dedupScan words).regions k)).sum⟩ := by
  simp only [chunkIndicesOf] at h
  simp only [deduplicateByTimestamp, dedupScan, chunkIndicesOf, wordsOfChunk]
  rw [if_neg h]
  exact ⟨rfl, rfl⟩

theorem chunkIndicesOf_nodup (words : List DWord) : (chunkIndicesOf words).Nodup :=
  ((List.perm_insertionSort (· ≤ ·) _).nodup_iff).mpr (List.nodup_dedup _)

theorem chunkIndicesOf_covers (words : List DWord) :
    ∀ w ∈ words, w.chunkIndex ∈ chunkIndicesOf words := by
  intro w hw
  have hmem : w.chunkIndex ∈ (words.map (fun w => w.chunkIndex)).dedup :=
    List.mem_dedup.mpr (List.mem_map_of_mem _ hw)
  exact ((List.perm_insertionSort (· ≤ ·) _).mem_iff).mpr hmem

theorem chunkIndicesOf_nil_imp (words : List DWord)
    (h : (chunkIndicesOf words).length = 0) : words = [] := by
  cases hw : words with
  | nil => rfl
  | cons w ws =>
    have := chunkIndicesOf_covers words w (by rw [hw]; exact List.mem_cons_self _ _)
    rw [List.length_eq_zero] at h
    rw [h] at this
    exact absurd this (List.not_mem_nil _)

theorem emitWords_mem (ws : List DWord) :
    ∀ j s e, ∀ w ∈ emitWords ws j s e, w ∈ ws := by
  induction ws with
  | nil => intro j s e w hw; simp [emitWords] at hw
  | cons x ws ih =>
    intro j s e w hw
    rw [emitWords] at hw
    rw [List.mem_append] at hw
    rcases hw with hw | hw
    · split at hw
      · rw [List.mem_singleton] at hw
        subst hw
        exact List.mem_cons_self _ _
      · simp at hw
    · exact List.mem_cons_of_mem _ (ih (j + 1) s e w hw)

theorem filter_flatMap_groups (k : ℕ) :
    ∀ (ks : List ℕ) (g : ℕ → List DWord), ks.Nodup →
      (∀ k' ∈ ks, ∀ w ∈ g k', w.chunkIndex = k') →
      (ks.flatMap g).filter (fun w => w.chunkIndex == k) =
        if k ∈ ks then g k else [] := by
  intro ks
  induction ks with
  | nil => intro g _ _; simp
  | cons a ks ih =>
    intro g hnd hidx
    rw [List.flatMap_cons, List.filter_append]
    have hnd' : ks.Nodup := (List.nodup_cons.mp hnd).2
    have hidx' : ∀ k' ∈ ks, ∀ w ∈ g k', w.chunkIndex = k' :=
      fun k' hk' => hidx k' (List.mem_cons_of_mem _ hk')
    by_cases hak : k = a
    · subst hak
      have h1 : (g k).filter (fun w => w.chunkIndex == k) = g k := by
        rw [List.filter_eq_self]
        intro w hw
        simp [hidx k (List.mem_cons_self _ _) w hw]
      have hknotin : k ∉ ks := (List.nodup_cons.mp hnd).1
      rw [h1, ih g hnd' hidx', if_neg hknotin, if_pos (List.mem_cons_self _ _),
        List.append_nil]
    · have h1 : (g a).filter (fun w => w.chunkIndex == k) = [] := by
        rw [List.filter_eq_nil_iff]
        intro w hw
        simp [hidx a (List.mem_cons_self _ _) w hw, Ne.symm hak]
      rw [h1, ih g hnd' hidx', List.nil_append]
      by_cases hks : k ∈ ks
      · rw [if_pos hks, if_pos (List.mem_cons_of_mem _ hks)]
      · rw [if_neg hks, if_neg (by
          intro hmem
          rcases List.mem_cons.mp hmem with h | h
          · exact hak h
          · exact hks h)]

/-- C5 (amended): the emitted word count plus the reported
wordsDeduplicated always equals the input word count; and when no
adjacent chunk pair overlaps, wordsDeduplicated is 0. (The converse of
the second part, as claimed, is false: an overlapping pair can drop zero
words when the non-authoritative overlap slice is empty; see the
counterexample.) -/
theorem claim5_word_conservation (words : List DWord) (ov : ℚ) :
    ((deduplicateByTimestamp words ov).words.length +
      (deduplicateByTimestamp words ov).stats.wordsDeduplicated = words.length) ∧
    (noAdjacentOverlap words →
      (deduplicateByTimestamp words ov).stats.wordsDeduplicated = 0) := by
  by_cases hks : (chunkIndicesOf words).length = 0
  · have hw := chunkIndicesOf_nil_imp words hks
    rw [deduplicateByTimestamp_empty words ov hks]
    subst hw
    exact ⟨rfl, fun _ => rfl⟩
  · obtain ⟨hwords, hstats⟩ := deduplicateByTimestamp_fields words ov hks
    have hInv : entryInvariantF (fun k => words.filter (fun w => w.chunkIndex == k))
        (dedupScan words).regions := by
      apply foldl_scanPair_invariant
      intro k
      trivial
    have hpt : ∀ k ∈ chunkIndicesOf words,
        (emitWords (wordsOfChunk words k) 0
            (chunkSliceBounds (dedupScan words).regions (wordsOfChunk words k).length k).1
            (chunkSliceBounds (dedupScan words).regions (wordsOfChunk words k).length k).2).length +
          chunkDropCount (dedupScan words).regions k =
        (words.filter (fun w => w.chunkIndex == k)).length := by
      intro k _
      have := chunk_emit_conservation (fun k => words.filter (fun w => w.chunkIndex == k))
        (dedupScan words).regions k hInv
      simpa [wordsOfChunk] using this
    constructor
    · rw [hwords, hstats]
      simp only [List.length_flatMap]
      rw [← sum_map_add_nat,
        ← sum_group_lengths (chunkIndicesOf words) words
          (chunkIndicesOf_nodup words) (chunkIndicesOf_covers words)]
      congr 1
      refine List.map_congr_left ?_
      intro k hk
      simpa using hpt k hk
    · intro hno
      rw [hstats]
      have hfold : dedupScan words = ⟨fun _ => none, []⟩ := by
        unfold dedupScan
        apply foldl_scanPair_no_overlap
        intro p hp
        have := hno p hp
        simpa [wordsOfChunk] using this
      rw [hfold]
      simp [chunkDropCount]

/-- Witness for C5 at a concrete input: two non-overlapping chunks, so
nothing is dropped and all words are emitted. -/
theorem claim5_word_conservation_witness :
    ((deduplicateByTimestamp
        [⟨"a", 1, 2, 1/2, 0, ⟨"a", 1, 2⟩⟩, ⟨"b", 11, 12, 1/2, 1, ⟨"b", 1, 2⟩⟩] 10).words.length +
      (deduplicateByTimestamp
        [⟨"a", 1, 2, 1/2, 0, ⟨"a", 1, 2⟩⟩, ⟨"b", 11, 12, 1/2, 1, ⟨"b", 1, 2⟩⟩] 10).stats.wordsDeduplicated =
      ([⟨"a", 1, 2, 1/2, 0, ⟨"a", 1, 2⟩⟩, ⟨"b", 11, 12, 1/2, 1, ⟨"b", 1, 2⟩⟩] : List DWord).length) ∧
    (deduplicateByTimestamp
        [⟨"a", 1, 2, 1/2, 0, ⟨"a", 1, 2⟩⟩, ⟨"b", 11, 12, 1/2, 1, ⟨"b", 1, 2⟩⟩] 10).stats.wordsDeduplicated = 0 :=
  ⟨(claim5_word_conservation _ 10).1,
    (claim5_word_conservation _ 10).2 (by
      intro p hp
      simp only [chunkIndicesOf, wordsOfChunk] at hp ⊢
      simp [List.dedup, List.insertionSort, List.orderedInsert] at hp
      subst hp
      simp
      norm_num)⟩

/-- C6: the emitted word sequence, restricted to any single chunk,
is a contiguous sub-range (and hence in the original order) of that
chunk's input word list; chunks are emitted in index order and the
combined list is never globally sorted by timestamp. -/
theorem claim6_order_preservation (words : List DWord) (ov : ℚ) (k : ℕ) :
    ((deduplicateByTimestamp words ov).words.filter (fun w => w.chunkIndex == k)) <:+:
      (words.filter (fun w => w.chunkIndex == k)) := by
  by_cases hks : (chunkIndicesOf words).length = 0
  · rw [deduplicateByTimestamp_empty words ov hks]
    exact List.nil_infix
  · obtain ⟨hwords, _⟩ := deduplicateByTimestamp_fields words ov hks
    rw [hwords]
    rw [filter_flatMap_groups k (chunkIndicesOf words) _ (chunkIndicesOf_nodup words)
      (by
        intro k' hk' w hw
        have hmem := emitWords_mem _ _ _ _ w hw
        have hmem2 : w ∈ words.filter (fun w => w.chunkIndex == k') := by
          simpa [wordsOfChunk] using hmem
        simpa using List.of_mem_filter hmem2)]
    split
    · cases hreg : (dedupScan words).regions k with
      | none =>
        simp only [chunkSliceBounds, hreg]
        rw [emitWords_take]
        simp only [wordsOfChunk]
        exact List.IsPrefix.isInfix ( List.take_prefix _ _)
      | some entry =>
        cases entry with
        | cutoff c n =>
          simp only [chunkSliceBounds, hreg]
          rw [emitWords_take]
          simp only [wordsOfChunk]
          exact List.IsPrefix.isInfix ( List.take_prefix _ _)
        | startFrom s n =>
          simp only [chunkSliceBounds, hreg]
          rw [emitWords_drop _ 0 s _ (by simp)]
          simp only [wordsOfChunk]
          exact List.IsSuffix.isInfix ( List.drop_suffix _ _)
    · exact List.nil_infix

/-- C10: when no result is successful with nonempty text (in particular
for the empty result list), mergeTranscriptsWithDeduplication returns
the empty transcript with zeroed statistics, without running either
merge algorithm. -/
theorem claim10_empty_merge (results : List TResult) (ov : ℚ)
    (h : ∀ r ∈ results, ¬ (r.success = true ∧ r.text ≠ "")) :
    (mergeTranscriptsWithDeduplication results ov).text = "" ∧
    (mergeTranscriptsWithDeduplication results ov).words = [] ∧
    (mergeTranscriptsWithDeduplication results ov).stats =
      ⟨0, 0⟩ := by
  have hfil : results.filter (fun r => r.success && ! (r.text == "")) = [] := by
    rw [List.filter_eq_nil_iff]
    intro r hr
    have hr' := h r hr
    simp only [Bool.and_eq_true, Bool.not_eq_true', beq_eq_false_iff_ne]
    tauto
  simp only [mergeTranscriptsWithDeduplication, hfil]
  rw [if_pos (show ([] : List TResult).length = 0 from rfl)]
  exact ⟨rfl, rfl, rfl⟩

/-- Witness for C10: one failed result and one successful result with
empty text. -/
theorem claim10_empty_merge_witness :
    (mergeTranscriptsWithDeduplication
      [⟨default, false, "hello", [], "boom", some ErrorType.server⟩,
        ⟨default, true, "", [], "", none⟩] 10).text = "" ∧
    (mergeTranscriptsWithDeduplication
      [⟨default, false, "hello", [], "boom", some ErrorType.server⟩,
        ⟨default, true, "", [], "", none⟩] 10).words = [] ∧
    (mergeTranscriptsWithDeduplication
      [⟨default, false, "hello", [], "boom", some ErrorType.server⟩,
        ⟨default, true, "", [], "", none⟩] 10).stats = ⟨0, 0⟩ :=
  claim10_empty_merge _ 10 (by
    intro r hr
    rcases List.mem_cons.mp hr with rfl | hr
    · simp
    · rcases List.mem_cons.mp hr with rfl | hr
      · simp
      · exact absurd hr (List.not_mem_nil _))

theorem tieResults_lift :
    mergeTranscriptsWithDeduplication tieResults 10 =
      deduplicateByTimestamp [wordX, wordY] 10 := by
  simp [mergeTranscriptsWithDeduplication, tieResults, chunkA, chunkB]
  norm_num [wordX, wordY, min_def]

/-- C2 counterexample: two chunks each containing one word with the same
absolute timestamps (9.8 - 10.2) and exactly equal mean centralities
(both -1/25). The claim says the tie goes to B (the later chunk), i.e.
chunk 1's word is retained; the code keeps chunk 0's word and drops
chunk 1's. -/
theorem claim2_counterexample :
    meanCentrality (overlapSliceB [wordX] [wordY]) =
      meanCentrality (overlapSliceA [wordX] [wordY]) ∧
    (mergeTranscriptsWithDeduplication tieResults 10).words.map (fun w => w.chunkIndex) =
      [0] ∧
    (mergeTranscriptsWithDeduplication tieResults 10).stats.wordsDeduplicated = 1 := by
  have h2 := (deduplicateByTimestamp_two_chunks 0 1 (by norm_num) [wordX] [wordY]
      (by simp) (by simp)
      (by intro w hw; rw [List.mem_singleton] at hw; subst hw; rfl)
      (by intro w hw; rw [List.mem_singleton] at hw; subst hw; rfl) 10
      (by simp [wordX, wordY]; norm_num)).2
    (by norm_num [meanCentrality, overlapSliceA, overlapSliceB, overlapStartIdx,
      overlapEndIdx, wordX, wordY])
  have heq : deduplicateByTimestamp [wordX, wordY] 10 =
      deduplicateByTimestamp ([wordX] ++ [wordY]) 10 := rfl
  refine ⟨?_, ?_, ?_⟩
  · norm_num [meanCentrality, overlapSliceA, overlapSliceB, overlapStartIdx,
      overlapEndIdx, wordX, wordY]
  · rw [tieResults_lift, heq, h2.1]
    norm_num [overlapEndIdx, wordX, wordY]
  · rw [tieResults_lift, heq, h2.2]
    norm_num [overlapSliceB, overlapEndIdx, wordX, wordY]

/-- C2 (amended): in the pair-wise overlap resolution, the set with the
strictly higher mean centrality is authoritative and the other side's
overlap slice is dropped intact, but a tie makes the earlier chunk A
authoritative (A keeps all its words and B's overlap prefix is
dropped). Stated for a merge consisting of the overlapping pair alone;
when a chunk overlaps both neighbours, the later pair's instruction
overwrites the earlier one in the overlapRegions map. -/
theorem claim2_pairwise_resolution (a b : ℕ) (hab : a < b)
    (wsA wsB : List DWord) (hA : wsA ≠ []) (hB : wsB ≠ [])
    (hidxA : ∀ w ∈ wsA, w.chunkIndex = a) (hidxB : ∀ w ∈ wsB, w.chunkIndex = b)
    (ov : ℚ)
    (hov : (wsA.getLastD default).absoluteEnd > wsB.headI.absoluteStart) :
    (meanCentrality (overlapSliceB wsA wsB) > meanCentrality (overlapSliceA wsA wsB) →
      (deduplicateByTimestamp (wsA ++ wsB) ov).words =
        wsA.take (overlapStartIdx wsB.headI.absoluteStart wsA) ++ wsB ∧
      (deduplicateByTimestamp (wsA ++ wsB) ov).stats =
        ⟨1, (overlapSliceA wsA wsB).length⟩) ∧
    (¬ meanCentrality (overlapSliceB wsA wsB) > meanCentrality (overlapSliceA wsA wsB) →
      (deduplicateByTimestamp (wsA ++ wsB) ov).words =
        wsA ++ wsB.drop (overlapEndIdx (wsA.getLastD default).absoluteEnd wsB) ∧
      (deduplicateByTimestamp (wsA ++ wsB) ov).stats =
        ⟨1, (overlapSliceB wsA wsB).length⟩) :=
  deduplicateByTimestamp_two_chunks a b hab wsA wsB hA hB hidxA hidxB ov hov

/-- Witness for C2 at the concrete tie input. -/
theorem claim2_pairwise_resolution_witness :
    (meanCentrality (overlapSliceB [wordX] [wordY]) >
        meanCentrality (overlapSliceA [wordX] [wordY]) →
      (deduplicateByTimestamp ([wordX] ++ [wordY]) 10).words =
        [wordX].take (overlapStartIdx ([wordY] : List DWord).headI.absoluteStart [wordX]) ++ [wordY] ∧
      (deduplicateByTimestamp ([wordX] ++ [wordY]) 10).stats =
        ⟨1, (overlapSliceA [wordX] [wordY]).length⟩) ∧
    (¬ meanCentrality (overlapSliceB [wordX] [wordY]) >
        meanCentrality (overlapSliceA [wordX] [wordY]) →
      (deduplicateByTimestamp ([wordX] ++ [wordY]) 10).words =
        [wordX] ++ [wordY].drop
          (overlapEndIdx (([wordX] : List DWord).getLastD default).absoluteEnd [wordY]) ∧
      (deduplicateByTimestamp ([wordX] ++ [wordY]) 10).stats =
        ⟨1, (overlapSliceB [wordX] [wordY]).length⟩) :=
  claim2_pairwise_resolution 0 1 (by norm_num) [wordX] [wordY]
    (by simp) (by simp)
    (by intro w hw; rw [List.mem_singleton] at hw; subst hw; rfl)
    (by intro w hw; rw [List.mem_singleton] at hw; subst hw; rfl) 10
    (by simp [wordX, wordY]; norm_num)

/-- C5 counterexample: chunk 0's only word spans 0 - 10.5 and chunk 1's
only word spans 10.4 - 11.4, so the adjacent pair overlaps
(ov_end = 10.5 > ov_start = 10.4), yet chunk 0's overlap suffix (words
starting at or after 10.3) is empty: the authoritative side is chunk 1,
nothing is dropped and wordsDeduplicated = 0 despite the overlap. -/
theorem claim5_counterexample :
    mergeTranscriptsWithDeduplication ovResults 10 =
      deduplicateByTimestamp [wordA0, wordB0] 10 ∧
    ¬ noAdjacentOverlap [wordA0, wordB0] ∧
    (deduplicateByTimestamp [wordA0, wordB0] 10).stats.wordsDeduplicated = 0 ∧
    (deduplicateByTimestamp [wordA0, wordB0] 10).words.length = 2 := by
  have hidx : chunkIndicesOf [wordA0, wordB0] = [0, 1] := by
    have h1 : (([wordA0, wordB0] : List DWord).map (fun w => w.chunkIndex)) = [0, 1] := by
      simp [wordA0, wordB0]
    unfold chunkIndicesOf
    rw [h1]
    have h2 : ([0, 1] : List ℕ).dedup = [0, 1] := by
      exact dedup_two_const 0 1 (by norm_num) [0] [1]
        (by simp) (by simp) (by simp) (by simp)
    rw [h2]
    exact insertionSort_pair 0 1 (by norm_num)
  have h2 := (deduplicateByTimestamp_two_chunks 0 1 (by norm_num) [wordA0] [wordB0]
      (by simp) (by simp)
      (by intro w hw; rw [List.mem_singleton] at hw; subst hw; rfl)
      (by intro w hw; rw [List.mem_singleton] at hw; subst hw; rfl) 10
      (by simp [wordA0, wordB0]; norm_num)).1
    (by norm_num [meanCentrality, overlapSliceA, overlapSliceB, overlapStartIdx,
      overlapEndIdx, wordA0, wordB0])
  have heq : deduplicateByTimestamp [wordA0, wordB0] 10 =
      deduplicateByTimestamp ([wordA0] ++ [wordB0]) 10 := rfl
  refine ⟨?_, ?_, ?_, ?_⟩
  · simp [mergeTranscriptsWithDeduplication, ovResults, chunkA5, chunkB5]
    norm_num [wordA0, wordB0, min_def]
  · intro hno
    have hmem : ((0, 1) : ℕ × ℕ) ∈
        (chunkIndicesOf [wordA0, wordB0]).zip (chunkIndicesOf [wordA0, wordB0]).tail := by
      rw [hidx]; simp
    have hcon := hno (0, 1) hmem
    apply hcon
    simp [wordsOfChunk, wordA0, wordB0]
    norm_num
  · rw [heq, h2.2]
    norm_num [overlapSliceA, overlapStartIdx, wordA0, wordB0]
  · rw [heq, h2.1]
    norm_num [overlapStartIdx, wordA0, wordB0]

end GroqAudioChunker
